import Mathlib

/-!
# Verification of the nested-relation reconciliation engine
  (drf-writable-nested, `drf_writable_nested/mixins.py`)

Shallow embedding of the reconciliation logic of
`BaseNestedModelSerializer`, `NestedCreateMixin`, `NestedUpdateMixin` and
`UniqueFieldsMixin`.  Pure data is modelled with Lean structures; the
Django ORM storage layer is modelled as explicit stores (lists of
entities plus a fresh-primary-key counter, mirroring auto-increment
primary keys); exceptions are modelled as explicit error values threaded
alongside the mutated state (Python exceptions do not roll back earlier
mutations, so functions return the state reached at the failure point
together with the error).

Primary keys are `Nat`.  Python truthiness of a primary key
(`if pk:` in `_get_related_pk`) is `pk ≠ 0`; Django auto-assigned keys
are always positive, which the well-formedness predicates record.
String conversion of keys (`str(pk)`) is injective on `Nat`, so keys are
compared directly; the one place where string conversion is semantically
visible (`str(None) = "None"` in `update_or_create_direct_relations`) is
modelled explicitly in `pkMismatch`.
-/

namespace DWN

/-- A stored child entity of a reverse relation: primary key, its
non-key attributes (abstracted to one `Nat`), and the value of its
foreign-key field pointing at the parent (`none` = unlinked).  Mirrors a
Django model instance on the "many" side of a reverse relation. -/
structure Child where
  pk : Nat
  attrs : Nat
  parent : Option Nat
deriving DecidableEq, Repr

/-- The storage layer for one child table: the stored rows plus the next
auto-increment primary key. -/
structure Store where
  children : List Child
  nextPk : Nat
deriving DecidableEq, Repr

/-- One submitted child mapping of the payload (`related_data` element).
`pk` is the value found under the primary-key key (`'pk'` or the pk
attname) — `none` when the key is absent.  `valid` says whether
`serializer.is_valid(raise_exception=True)` succeeds for this mapping,
and `errDetail` is the abstracted `exc.detail` raised when it does not.
`nonEmpty` records whether the mapping has any non-pk keys (Python dict
truthiness, used by `_extract_related_pks`' `if d` filter). -/
structure ChildData where
  pk : Option Nat
  attrs : Nat
  valid : Bool
  errDetail : Nat
  nonEmpty : Bool
deriving DecidableEq, Repr

/-- `BaseNestedModelSerializer._get_related_pk` (mixins.py:107-113):
`pk = data.get('pk') or data.get(attname); return str(pk) if pk else
None`.  A present-but-falsy key (0) yields `None`. -/
def getRelatedPk (pk : Option Nat) : Option Nat :=
  match pk with
  | some k => if k ≠ 0 then some k else none
  | none => none

/-- Python truthiness of a submitted child mapping (a dict is truthy iff
it has at least one key). -/
def dataTruthy (d : ChildData) : Bool :=
  d.pk.isSome || d.nonEmpty

/-- The children currently linked to parent `p`
(`getattr(instance, field_source).all()` for a reverse relation). -/
def linkedChildren (s : Store) (p : Nat) : List Child :=
  s.children.filter (fun c => c.parent == some p)

/-- Primary keys of the children currently linked to parent `p`. -/
def linkedPks (s : Store) (p : Nat) : List Nat :=
  (linkedChildren s p).map (fun c => c.pk)

/-- Lookup in the prefetched `instances` dict
(`instances.get(self._get_related_pk(data, ...))`, mixins.py:175-177):
`dict.get(None)` misses; otherwise match by (stringified) primary
key. -/
def lookupInst (snapshot : List Child) (k : Option Nat) : Option Child :=
  match k with
  | some pk => snapshot.find? (fun c => c.pk == pk)
  | none => none

/-- `serializer.save(**save_kwargs)` for a reverse non-m2m relation
(mixins.py:169-170,185): the save kwargs carry
`save_kwargs[related_field.name] = instance`, so the saved child's
foreign key is set to the parent.  With an existing instance the row is
updated in place (same primary key); without one a fresh row is created
under the next auto-increment key.  Returns the new store and the saved
child's primary key. -/
def saveNested (s : Store) (p : Nat) (obj : Option Child) (a : Nat) :
    Store × Nat :=
  match obj with
  | some c =>
      (⟨s.children.map (fun x => if x.pk == c.pk then ⟨c.pk, a, some p⟩ else x),
        s.nextPk⟩, c.pk)
  | none =>
      (⟨s.children ++ [⟨s.nextPk, a, some p⟩], s.nextPk + 1⟩, s.nextPk)

/-- An error slot of the per-child `errors` list: `none` models the
empty dict `{}` appended on success, `some e` the `exc.detail` appended
on failure (mixins.py:188,190). -/
abbrev ErrSlot := Option Nat

/-- The structured errors the engine raises (`ValidationError` payloads
and the `cannot_delete_protected` failure of `NestedUpdateMixin`). -/
inductive NestedError where
  /-- `ValidationError with fieldName mapped to a single error object`
  (one-to-one reverse relations, mixins.py:194, and direct relations,
  mixins.py:232). -/
  | fieldDetail (fieldName : String) (detail : ErrSlot)
  /-- `ValidationError with fieldName mapped to the parallel errors
  list` (plural reverse relations, mixins.py:196). -/
  | fieldList (fieldName : String) (slots : List ErrSlot)
  /-- `self.fail('cannot_delete_protected', instances=...)`
  (mixins.py:330-331): the formatted message. -/
  | cannotDeleteProtected (msg : String)
deriving DecidableEq, Repr

/-- The per-`data` loop of `update_or_create_reverse_relations`
(mixins.py:172-190) for a non-m2m relation: thread the store through the
sequential saves, look existing children up in the `instances` snapshot
prefetched before the loop, write the saved primary key back into the
submitted mapping (`data['pk'] = related_instance.pk`), and collect the
parallel error slots and the saved instances' keys.
Returns (final store, mutated payload, error slots, saved pks). -/
def revLoop (p : Nat) (snapshot : List Child) :
    Store → List ChildData → Store × List ChildData × List ErrSlot × List Nat
  | s, [] => (s, [], [], [])
  | s, d :: ds =>
      if d.valid then
        let obj := lookupInst snapshot (getRelatedPk d.pk)
        let r := saveNested s p obj d.attrs
        let rest := revLoop p snapshot r.1 ds
        (rest.1, { d with pk := some r.2 } :: rest.2.1,
          none :: rest.2.2.1, r.2 :: rest.2.2.2)
      else
        let rest := revLoop p snapshot s ds
        (rest.1, d :: rest.2.1, some d.errDetail :: rest.2.2.1, rest.2.2.2)

/-- `update_or_create_reverse_relations` (mixins.py:131-196) specialised
to one plural (one-to-many) reverse relation whose payload is present.
Prefetch the linked children, run the per-child loop, and if any error
slot is non-empty raise `ValidationError with field mapped to errors`
(the store mutated so far is kept: exceptions do not undo earlier
saves).  Returns (store, mutated payload, optional raised error). -/
def update_or_create_reverse_o2m (fieldName : String) (s : Store) (p : Nat)
    (ds : List ChildData) : Store × List ChildData × Option NestedError :=
  let snapshot := linkedChildren s p
  let r := revLoop p snapshot s ds
  if (r.2.2.1).any (fun e => e.isSome) then
    (r.1, r.2.1, some (.fieldList fieldName r.2.2.1))
  else
    (r.1, r.2.1, none)

/-- `update_or_create_reverse_relations` (mixins.py:144-196) specialised
to a reverse one-to-one relation whose payload is present: if the
submitted mapping omits the primary key and a child is already linked,
inject the linked child's key (mixins.py:150-153); then process the
mapping as a one-element list.  On failure the raised payload is
`fieldName mapped to errors[0]` (mixins.py:194). -/
def update_or_create_reverse_o2o (fieldName : String) (s : Store) (p : Nat)
    (d : ChildData) : Store × ChildData × Option NestedError :=
  let linked := (linkedChildren s p).head?
  let d' :=
    if d.pk.isNone then
      match linked with
      | some c => { d with pk := some c.pk }
      | none => d
    else d
  let snapshot :=
    match linked with
    | some c => [c]
    | none => []
  let r := revLoop p snapshot s [d']
  if (r.2.2.1).any (fun e => e.isSome) then
    (r.1, (r.2.1).headD d', some (.fieldDetail fieldName ((r.2.2.1).headD none)))
  else
    (r.1, (r.2.1).headD d', none)

/-- `BaseNestedModelSerializer._extract_related_pks` (mixins.py:115-117):
the set of keys claimed by the (mutated) payload, skipping falsy
mappings (`if d`) and mappings without a truthy key.  (`None` entries of
the Python set can never match a stored key — SQL `NULL` matches
nothing in `pk__in` — so they are dropped here.) -/
def extract_related_pks (ds : List ChildData) : List Nat :=
  (ds.filter dataTruthy).filterMap (fun d => getRelatedPk d.pk)

/-- `NestedUpdateMixin.delete_reverse_relations_if_need`
(mixins.py:316-327) for one one-to-many relation: delete every child
still linked to the parent whose key is absent from the payload's key
set (`related_value.exclude(pk__in=related_pks).delete()` guarded by
`if existing_pks - related_pks`). -/
def delete_reverse_o2m (s : Store) (p : Nat) (ds : List ChildData) : Store :=
  let related := extract_related_pks ds
  let existing := linkedPks s p
  if existing.any (fun k => !(related.contains k)) then
    ⟨s.children.filter
      (fun c => !(c.parent == some p && !(related.contains c.pk))), s.nextPk⟩
  else s

/-- The reverse-relation part of `NestedUpdateMixin.update`
(mixins.py:295-296) for one one-to-many relation:
`update_or_create_reverse_relations` then, when no validation error was
raised, `delete_reverse_relations_if_need`. -/
def nestedUpdateReverseO2M (fieldName : String) (s : Store) (p : Nat)
    (ds : List ChildData) : Store × List ChildData × Option NestedError :=
  let r := update_or_create_reverse_o2m fieldName s p ds
  match r.2.2 with
  | some e => (r.1, r.2.1, some e)
  | none => (delete_reverse_o2m r.1 p r.2.1, r.2.1, none)

/-- Well-formedness of a child store: distinct primary keys, every key
positive (Django auto-fields start at 1) and below the auto-increment
counter, and the counter itself positive. -/
def Store.wf (s : Store) : Prop :=
  (s.children.map (fun c => c.pk)).Nodup ∧ 0 < s.nextPk ∧
    ∀ c ∈ s.children, 0 < c.pk ∧ c.pk < s.nextPk

instance (s : Store) : Decidable s.wf := by
  unfold Store.wf; infer_instance

/-! ## Specification-level description of the reconciled state (claim C1)

The following definitions follow the words of the specification, not the
code: a submitted child *matches* when its primary key is the key of an
existing linked child; matched children are updated in place (same key,
new attributes); unmatched submitted children are created under fresh
consecutive keys, appended in submission order; previously linked
children matched by no submitted child are deleted; children of other
parents are untouched.  Claim C1 is the statement that the engine's
sequential, mutating pipeline produces exactly this state. -/

/-- Spec-level: the existing linked child (if any) whose primary key the
submitted mapping carries. -/
def specMatch (snap : List Child) (d : ChildData) : Option Child :=
  match getRelatedPk d.pk with
  | some k => snap.find? (fun c => c.pk == k)
  | none => none

/-- Spec-level: the children created for the unmatched submitted
mappings, under fresh consecutive keys starting at `next`, in submission
order, linked to parent `p`. -/
def specNewChildren (p : Nat) (snap : List Child) (next : Nat) :
    List ChildData → List Child
  | [] => []
  | d :: ds =>
      match specMatch snap d with
      | some _ => specNewChildren p snap next ds
      | none => ⟨next, d.attrs, some p⟩ :: specNewChildren p snap (next + 1) ds

/-- Spec-level: how many fresh children the payload creates. -/
def specCreatedCount (snap : List Child) (ds : List ChildData) : Nat :=
  (ds.filter (fun d => (specMatch snap d).isNone)).length

/-- Spec-level: the surviving updated rows — a child linked to `p` that
some submitted mapping matches is updated in place (the matching
mapping's attributes, same key), a linked child matched by no mapping is
deleted, any other row is untouched. -/
def specKept (s : Store) (p : Nat) (ds : List ChildData) : List Child :=
  s.children.filterMap (fun c =>
    if c.parent == some p then
      match ds.find? (fun d => getRelatedPk d.pk == some c.pk) with
      | some d => some ⟨c.pk, d.attrs, some p⟩
      | none => none
    else some c)

/-- Spec-level stored state after reconciling parent `p` against payload
`ds`: surviving updated rows followed by the freshly created rows. -/
def specFinalStore (s : Store) (p : Nat) (ds : List ChildData) : Store :=
  ⟨specKept s p ds ++ specNewChildren p (linkedChildren s p) s.nextPk ds,
    s.nextPk + specCreatedCount (linkedChildren s p) ds⟩

/-- Spec-level payload after the save: each submitted mapping carries
the primary key of the child it was stored as. -/
def specPayload (snap : List Child) (next : Nat) :
    List ChildData → List ChildData
  | [] => []
  | d :: ds =>
      match specMatch snap d with
      | some c => { d with pk := some c.pk } :: specPayload snap next ds
      | none => { d with pk := some next } :: specPayload snap (next + 1) ds

/-- Spec-level: the keys under which the submitted mappings were stored
(matched key, or the fresh key assigned at creation). -/
def specSavedPks (snap : List Child) (next : Nat) : List ChildData → List Nat
  | [] => []
  | d :: ds =>
      match specMatch snap d with
      | some c => c.pk :: specSavedPks snap next ds
      | none => next :: specSavedPks snap (next + 1) ds

/-! ## Many-to-many reverse relations -/

/-- A stored row of the target table of a many-to-many reverse relation
(no foreign key to the parent; linkage lives in the association set). -/
structure MChild where
  pk : Nat
  attrs : Nat
deriving DecidableEq, Repr

/-- Storage for a many-to-many reverse relation, seen from one parent:
the target table, the set of keys currently associated to the parent
(the through table restricted to this parent), and the auto-increment
counter. -/
structure MStore where
  children : List MChild
  assoc : List Nat
  nextPk : Nat
deriving DecidableEq, Repr

/-- `Store.wf` for the many-to-many storage: distinct positive keys
below the counter, positive counter, association keys distinct and
drawn from the table. -/
def MStore.wf (s : MStore) : Prop :=
  (s.children.map (fun c => c.pk)).Nodup ∧ 0 < s.nextPk ∧
    (∀ c ∈ s.children, 0 < c.pk ∧ c.pk < s.nextPk) ∧
    s.assoc.Nodup ∧ ∀ k ∈ s.assoc, ∃ c ∈ s.children, c.pk = k

instance (s : MStore) : Decidable s.wf := by
  unfold MStore.wf; infer_instance

/-- The children currently associated to the parent
(`getattr(instance, field_source).all()` through the m2m manager). -/
def massocChildren (s : MStore) : List MChild :=
  s.children.filter (fun c => s.assoc.contains c.pk)

/-- `lookupInst` for the many-to-many prefetched dict. -/
def lookupInstM (snapshot : List MChild) (k : Option Nat) : Option MChild :=
  match k with
  | some pk => snapshot.find? (fun c => c.pk == pk)
  | none => none

/-- `serializer.save(**save_kwargs)` for a many-to-many reverse
relation: `save_kwargs` carries no parent reference (mixins.py:169 —
the `elif not related_field.many_to_many` branch is skipped), so the
save only updates or creates the row. -/
def saveNestedM (s : MStore) (obj : Option MChild) (a : Nat) :
    MStore × Nat :=
  match obj with
  | some c =>
      (⟨s.children.map (fun x => if x.pk == c.pk then ⟨c.pk, a⟩ else x),
        s.assoc, s.nextPk⟩, c.pk)
  | none =>
      (⟨s.children ++ [⟨s.nextPk, a⟩], s.assoc, s.nextPk + 1⟩, s.nextPk)

/-- The per-`data` loop of `update_or_create_reverse_relations`
(mixins.py:172-190) for a many-to-many relation. -/
def revLoopM (snapshot : List MChild) :
    MStore → List ChildData → MStore × List ChildData × List ErrSlot × List Nat
  | s, [] => (s, [], [], [])
  | s, d :: ds =>
      if d.valid then
        let obj := lookupInstM snapshot (getRelatedPk d.pk)
        let r := saveNestedM s obj d.attrs
        let rest := revLoopM snapshot r.1 ds
        (rest.1, { d with pk := some r.2 } :: rest.2.1,
          none :: rest.2.2.1, r.2 :: rest.2.2.2)
      else
        let rest := revLoopM snapshot s ds
        (rest.1, d :: rest.2.1, some d.errDetail :: rest.2.2.1, rest.2.2.2)

/-- `update_or_create_reverse_relations` (mixins.py:131-202) specialised
to a many-to-many reverse relation whose payload is present: prefetch
the associated children, run the loop, raise on any child error,
otherwise replace the association set with exactly the saved instances
(`m2m_manager.set(new_related_instances)`, mixins.py:198-202). -/
def update_or_create_reverse_m2m (fieldName : String) (s : MStore)
    (ds : List ChildData) : MStore × List ChildData × Option NestedError :=
  let snapshot := massocChildren s
  let r := revLoopM snapshot s ds
  if (r.2.2.1).any (fun e => e.isSome) then
    (r.1, r.2.1, some (.fieldList fieldName r.2.2.1))
  else
    (⟨(r.1).children, r.2.2.2, (r.1).nextPk⟩, r.2.1, none)

/-- `NestedUpdateMixin.delete_reverse_relations_if_need`
(mixins.py:316-325) for a many-to-many relation: detach (remove from the
association, keeping the row) every associated key absent from the
payload's key set. -/
def delete_reverse_m2m (s : MStore) (ds : List ChildData) : MStore :=
  let related := extract_related_pks ds
  if s.assoc.any (fun k => !(related.contains k)) then
    ⟨s.children, s.assoc.filter (fun k => related.contains k), s.nextPk⟩
  else s

/-- The reverse-relation part of `NestedUpdateMixin.update` for one
many-to-many relation: `update_or_create_reverse_relations` then, when
no error was raised, `delete_reverse_relations_if_need`. -/
def nestedUpdateReverseM2M (fieldName : String) (s : MStore)
    (ds : List ChildData) : MStore × List ChildData × Option NestedError :=
  let r := update_or_create_reverse_m2m fieldName s ds
  match r.2.2 with
  | some e => (r.1, r.2.1, some e)
  | none => (delete_reverse_m2m r.1 r.2.1, r.2.1, none)

/-- Spec-level `specMatch` for a many-to-many relation: a mapping
matches the associated child carrying its key. -/
def specMatchM (snap : List MChild) (d : ChildData) : Option MChild :=
  match getRelatedPk d.pk with
  | some k => snap.find? (fun c => c.pk == k)
  | none => none

/-- Spec-level created rows for a many-to-many relation. -/
def specNewChildrenM (snap : List MChild) (next : Nat) :
    List ChildData → List MChild
  | [] => []
  | d :: ds =>
      match specMatchM snap d with
      | some _ => specNewChildrenM snap next ds
      | none => ⟨next, d.attrs⟩ :: specNewChildrenM snap (next + 1) ds

/-- Spec-level creation count for a many-to-many relation. -/
def specCreatedCountM (snap : List MChild) (ds : List ChildData) : Nat :=
  (ds.filter (fun d => (specMatchM snap d).isNone)).length

/-- Spec-level payload write-back for a many-to-many relation. -/
def specPayloadM (snap : List MChild) (next : Nat) :
    List ChildData → List ChildData
  | [] => []
  | d :: ds =>
      match specMatchM snap d with
      | some c => { d with pk := some c.pk } :: specPayloadM snap next ds
      | none => { d with pk := some next } :: specPayloadM snap (next + 1) ds

/-- Spec-level saved keys for a many-to-many relation. -/
def specSavedPksM (snap : List MChild) (next : Nat) :
    List ChildData → List Nat
  | [] => []
  | d :: ds =>
      match specMatchM snap d with
      | some c => c.pk :: specSavedPksM snap next ds
      | none => next :: specSavedPksM snap (next + 1) ds

/-! ## Proof layer: characterising the sequential reverse-relation loop -/

/-- Whether submitted mapping `d`, looked up against the prefetched
snapshot, resolves to the stored row `x` (proof-layer notion). -/
def matchesChild (snap : List Child) (d : ChildData) (x : Child) : Bool :=
  match lookupInst snap (getRelatedPk d.pk) with
  | some c => c.pk == x.pk
  | none => false

/-- The cumulative effect of the loop's in-place saves on one stored
row (proof-layer notion). -/
def updByData (p : Nat) (snap : List Child) (ds : List ChildData)
    (x : Child) : Child :=
  match ds.find? (fun d => matchesChild snap d x) with
  | some d => ⟨x.pk, d.attrs, some p⟩
  | none => x

/-- Spec-level final many-to-many stored state: matched associated rows
updated in place, unmatched submitted mappings created, no row deleted,
and the association replaced by exactly the saved keys — previously
associated rows absent from the payload are thereby detached, but
remain in the table. -/
def specFinalMStore (s : MStore) (ds : List ChildData) : MStore :=
  ⟨(s.children.map (fun c =>
      match ds.find? (fun d =>
          (specMatchM (massocChildren s) d).any (fun m => m.pk == c.pk)) with
      | some d => ⟨c.pk, d.attrs⟩
      | none => c)) ++ specNewChildrenM (massocChildren s) s.nextPk ds,
    specSavedPksM (massocChildren s) s.nextPk ds,
    s.nextPk + specCreatedCountM (massocChildren s) ds⟩

/-- Proof-layer `matchesChild` for the many-to-many loop. -/
def matchesChildM (snap : List MChild) (d : ChildData) (x : MChild) : Bool :=
  match lookupInstM snap (getRelatedPk d.pk) with
  | some c => c.pk == x.pk
  | none => false

/-- Proof-layer `updByData` for the many-to-many loop. -/
def updByDataM (snap : List MChild) (ds : List ChildData) (x : MChild) :
    MChild :=
  match ds.find? (fun d => matchesChildM snap d x) with
  | some d => ⟨x.pk, d.attrs⟩
  | none => x

/-- The parallel error slots the loop collects for a payload: the empty
dict for a child that validates, its validation detail otherwise
(mixins.py:183-190). -/
def specErrSlots (ds : List ChildData) : List ErrSlot :=
  ds.map (fun d => if d.valid then none else some d.errDetail)

/-! ## Relation classifier (`_extract_relations` / `_get_related_field`) -/

/-- A field of the Django model's `_meta`: either a concrete field
(scalar or forward relation — `get_field` returns it directly) or a
`ForeignObjectRel` (an auto-created reverse-relation descriptor). -/
inductive MetaField where
  | concrete
  | reverseRel
deriving DecidableEq, Repr

/-- The model's field registry (`model_class._meta`). -/
abbrev ModelMeta := List (String × MetaField)

/-- `model_class._meta.get_field(name)` — `none` models the
`FieldDoesNotExist` exception. -/
def get_field (meta : ModelMeta) (name : String) : Option MetaField :=
  (meta.find? (fun f => f.1 == name)).map (fun f => f.2)

/-- `isinstance(related_field, ForeignObjectRel)` dispatch of
`_get_related_field` (mixins.py:79-81): a reverse-relation descriptor
yields its underlying concrete field with `direct = False`; anything
else is returned as-is with `direct = True`. -/
def classifyField : MetaField → MetaField × Bool
  | .reverseRel => (.reverseRel, false)
  | .concrete => (.concrete, true)

/-- Python's `source.endswith('_set')` (mixins.py:73), expressed on the
string's character list. -/
def endsWithSet (source : String) : Bool :=
  source.data.reverse.take 4 == ['t', 'e', 's', '_']

/-- Python's `source[:-len('_set')]` (mixins.py:75), expressed on the
string's character list. -/
def dropSetSuffix (source : String) : String :=
  ⟨source.data.take (source.data.length - 4)⟩

/-- `BaseNestedModelSerializer._get_related_field` (mixins.py:64-81):
look the serializer field's source up in the model meta; on
`FieldDoesNotExist`, retry once with the conventional `_set` suffix
stripped, and re-raise (`none`) when that also fails or the name has no
such suffix. -/
def get_related_field (meta : ModelMeta) (source : String) :
    Option (MetaField × Bool) :=
  match get_field meta source with
  | some f => some (classifyField f)
  | none =>
      if endsWithSet source then
        match get_field meta (dropSetSuffix source) with
        | some f => some (classifyField f)
        | none => none
      else none

/-- What kind of serializer field a declared field is:
`ListSerializer`-of-`ModelSerializer`, plain nested `ModelSerializer`,
or any other (scalar) field. -/
inductive SFieldKind where
  | listNested
  | nested
  | plainF
deriving DecidableEq, Repr

/-- A declared serializer field (`self.fields` entry). -/
structure SField where
  name : String
  source : String
  readOnly : Bool
  kind : SFieldKind
deriving DecidableEq, Repr

/-- A validated-data value: the null sentinel or some value. -/
inductive PVal where
  | null
  | value (v : Nat)
deriving DecidableEq, Repr

/-- `BaseNestedModelSerializer._extract_relations` (mixins.py:17-62):
walk the declared fields; skip read-only fields; a field whose source
cannot be resolved by `_get_related_field` raises `FieldDoesNotExist`,
which the `try/except` swallows (`continue`) — the field is skipped,
never reported.  Nested fields present in the validated data are popped
from it and classified into the direct group or the reverse group
(in declaration order); a null-valued direct nested field is left for
the native update.  Returns (remaining validated data, direct field
names, reverse field names). -/
def extract_relations (meta : ModelMeta) (fields : List SField)
    (validated : List (String × PVal)) :
    List (String × PVal) × List String × List String :=
  match fields with
  | [] => (validated, [], [])
  | f :: rest =>
      if f.readOnly then extract_relations meta rest validated
      else
        match get_related_field meta f.source with
        | none => extract_relations meta rest validated
        | some fd =>
            match f.kind with
            | .listNested =>
                if (validated.find? (fun kv => kv.1 == f.source)).isNone then
                  extract_relations meta rest validated
                else
                  let validated' :=
                    validated.filter (fun kv => !(kv.1 == f.source))
                  let r := extract_relations meta rest validated'
                  (r.1, r.2.1, f.name :: r.2.2)
            | .nested =>
                match validated.find? (fun kv => kv.1 == f.source) with
                | none => extract_relations meta rest validated
                | some kv =>
                    if kv.2 == PVal.null && fd.2 then
                      extract_relations meta rest validated
                    else
                      let validated' :=
                        validated.filter (fun kv' => !(kv'.1 == f.source))
                      let r := extract_relations meta rest validated'
                      if fd.2 then (r.1, f.name :: r.2.1, r.2.2)
                      else (r.1, r.2.1, f.name :: r.2.2)
            | .plainF => extract_relations meta rest validated

/-! ## Unique-constraint deferral (`UniqueFieldsMixin`) -/

/-- A validator attached to a serializer field: the DRF
`UniqueValidator` or any other validator (tagged by an id). -/
inductive FValidator where
  | uniqueV
  | otherV (n : Nat)
deriving DecidableEq, Repr

/-- A serializer field as seen by `UniqueFieldsMixin.get_fields`. -/
structure UField where
  name : String
  validators : List FValidator
deriving DecidableEq, Repr

/-- `UniqueFieldsMixin.get_fields` (mixins.py:374-387): strip every
`UniqueValidator` from each field's validator list and record (in
declaration order) the names of the fields that carried one.
Returns (stripped fields, `_unique_fields`). -/
def get_fields : List UField → List UField × List String
  | [] => ([], [])
  | f :: rest =>
      let r := get_fields rest
      if f.validators.any (fun v => v == FValidator.uniqueV) then
        ({ f with validators :=
            f.validators.filter (fun v => !(v == FValidator.uniqueV)) } :: r.1,
          f.name :: r.2)
      else (f :: r.1, r.2)

/-- A stored row of the model validated by `UniqueFieldsMixin`, with the
value of its (single) unique column. -/
structure URecord where
  pk : Nat
  value : Nat
deriving DecidableEq, Repr

/-- Models DRF's `UniqueValidator` (external collaborator,
`rest_framework.validators`): filter the full queryset
(`self.Meta.model.objects.all()`) by the submitted value, exclude the
serializer's current instance when it is bound to one (update), and
fail if any row remains.  Returns `true` when validation passes. -/
def uniqueValidatorPasses (records : List URecord) (instancePk : Option Nat)
    (v : Nat) : Bool :=
  !(records.any (fun r => r.value == v && !(instancePk == some r.pk)))

/-- Outcome of `_validate_unique_fields`: success, a field-keyed
validation failure, or the `KeyError` Python raises when a non-partial
write lacks a recorded unique field. -/
inductive UniqueOutcome where
  | ok
  | fieldError (fieldName : String) (v : Nat)
  | lookupError (fieldName : String)
deriving DecidableEq, Repr

/-- `UniqueFieldsMixin._validate_unique_fields` (mixins.py:389-402):
for each recorded unique field, skip it on a partial write when absent
from the validated data; otherwise run the `UniqueValidator` against the
full stored set and the current instance, failing with an error keyed by
the field name.  Processing stops at the first failure (the exception
propagates). -/
def validate_unique_fields (uniqueFields : List String) (patchMode : Bool)
    (validated : List (String × Nat)) (records : List URecord)
    (instancePk : Option Nat) : UniqueOutcome :=
  match uniqueFields with
  | [] => .ok
  | f :: rest =>
      if patchMode && (validated.find? (fun kv => kv.1 == f)).isNone then
        validate_unique_fields rest patchMode validated records instancePk
      else
        match validated.find? (fun kv => kv.1 == f) with
        | none => .lookupError f
        | some kv =>
            if uniqueValidatorPasses records instancePk kv.2 then
              validate_unique_fields rest patchMode validated records instancePk
            else .fieldError f kv.2

/-! ## Direct relations (`update_or_create_direct_relations`) -/

/-- A stored entity of a direct (forward foreign-key) relation's target
table. -/
structure DEnt where
  pk : Nat
  attrs : Nat
deriving DecidableEq, Repr

/-- Storage for the direct relation's target table. -/
structure DStore where
  ents : List DEnt
  nextPk : Nat
deriving DecidableEq, Repr

/-- Well-formedness of the direct store. -/
def DStore.wf (s : DStore) : Prop :=
  (s.ents.map (fun e => e.pk)).Nodup ∧ 0 < s.nextPk ∧
    ∀ e ∈ s.ents, 0 < e.pk ∧ e.pk < s.nextPk

instance (s : DStore) : Decidable s.wf := by
  unfold DStore.wf; infer_instance

/-- The submitted mapping for a direct relation field. -/
structure DData where
  pk : Option Nat
  attrs : Nat
  valid : Bool
  errDetail : Nat
deriving DecidableEq, Repr

/-- The `data_pk != related_pk` comparison of
`update_or_create_direct_relations` (mixins.py:215-217).  In Python
`data_pk` is `None` or a digit string while `related_pk` is
`str(getattr(related_instance, 'pk', None))` — so `None` on either side
can never compare equal (`str(None) = "None"` is not a digit string and
Python `None` equals no string). -/
def pkMismatch (dataPk relatedPk : Option Nat) : Bool :=
  match dataPk, relatedPk with
  | some a, some b => !(a == b)
  | _, _ => true

/-- `update_or_create_direct_relations` (mixins.py:204-232) for one
many-to-one direct relation whose payload is present and non-null:
resolve the currently linked entity from the parent's foreign key; if
the submitted key mismatches the linked entity's key, drop the instance
so the nested save creates a fresh entity; validate-and-save; a
validation failure raises the field-keyed error.  Returns (store, the
saved entity's key for `attrs[field_source]`, optional error). -/
def update_or_create_direct_m2o (fieldName : String) (s : DStore)
    (curFk : Option Nat) (d : DData) :
    DStore × Option Nat × Option NestedError :=
  let relatedInstance := curFk.bind (fun k => s.ents.find? (fun e => e.pk == k))
  let dataPk := getRelatedPk d.pk
  let relatedPk := relatedInstance.map (fun e => e.pk)
  let inst := if pkMismatch dataPk relatedPk then none else relatedInstance
  if d.valid then
    match inst with
    | some e =>
        (⟨s.ents.map (fun x => if x.pk == e.pk then ⟨e.pk, d.attrs⟩ else x),
            s.nextPk⟩, some e.pk, none)
    | none =>
        (⟨s.ents ++ [⟨s.nextPk, d.attrs⟩], s.nextPk + 1⟩, some s.nextPk, none)
  else (s, none, some (.fieldDetail fieldName (some d.errDetail)))

/-! ## The full `NestedUpdateMixin.update` pipeline

A root entity with one direct many-to-one relation field `"d"` and one
reverse one-to-many relation field `"ch"`. -/

/-- The root entity: its key and its foreign key to the direct
relation's target. -/
structure Root where
  pk : Nat
  fk : Option Nat
deriving DecidableEq, Repr

/-- Combined storage: root row, direct-target table, reverse-child
table, and the two auto-increment counters. -/
structure FStore where
  root : Root
  dents : List DEnt
  children : List Child
  nextD : Nat
  nextC : Nat
deriving DecidableEq, Repr

/-- A full payload: the direct mapping (absent = field not submitted)
and the reverse list (absent = field not submitted). -/
structure FPayload where
  direct : Option DData
  reverse : Option (List ChildData)
deriving DecidableEq, Repr

/-- Result of one `update` call: the stored state reached, the payload
as mutated by the call (reverse children get their saved keys written
back; the direct mapping is never written back), and the raised error
if any. -/
structure FullResult where
  store : FStore
  payload : FPayload
  err : Option NestedError
deriving DecidableEq, Repr

/-- The reverse-relation tail of `NestedUpdateMixin.update`
(mixins.py:295-297): reconcile the reverse relation (when submitted),
then delete the children missing from the payload;
`instance.refresh_from_db()` is a no-op on this storage model. -/
def nestedUpdateFullReverse (s : FStore) (pl : FPayload) : FullResult :=
  match pl.reverse with
  | some ds =>
      let r := nestedUpdateReverseO2M "ch" ⟨s.children, s.nextC⟩ s.root.pk ds
      ⟨⟨s.root, s.dents, (r.1).children, s.nextD, (r.1).nextPk⟩,
        ⟨pl.direct, some r.2.1⟩, r.2.2⟩
  | none => ⟨s, pl, none⟩

/-- `NestedUpdateMixin.update` (mixins.py:280-298): resolve the direct
relation before the root update (`update_or_create_direct_relations`),
fold the saved entity into the root's foreign key (the superclass
`.update` assigning `validated_data[field_source]`), then run the
reverse reconciliation and the deletion pass.  A raised error aborts
the remaining steps; mutations already committed are kept. -/
def nestedUpdateFull (s : FStore) (pl : FPayload) : FullResult :=
  match pl.direct with
  | some dd =>
      let r := update_or_create_direct_m2o "d" ⟨s.dents, s.nextD⟩ s.root.fk dd
      match r.2.2 with
      | some e =>
          ⟨⟨s.root, (r.1).ents, s.children, (r.1).nextPk, s.nextC⟩, pl, some e⟩
      | none =>
          nestedUpdateFullReverse
            ⟨⟨s.root.pk, r.2.1⟩, (r.1).ents, s.children, (r.1).nextPk, s.nextC⟩
            pl
  | none => nestedUpdateFullReverse s pl

/-! ## The deletion pass across several reverse relations
(`delete_reverse_relations_if_need`) -/

/-- A child row for the multi-relation deletion model: its key, the
reverse relation (field name) linking it to the parent, and the
string forms of the referencing objects that protect it from deletion
(empty = deletable).  A non-empty `blockers` list models Django's
`on_delete=PROTECT` referents, reported through
`ProtectedError.args[1]`. -/
structure RChild where
  pk : Nat
  rel : String
  blockers : List String
deriving DecidableEq, Repr

/-- The stored children of all reverse relations of one parent. -/
structure RState where
  children : List RChild
deriving DecidableEq, Repr

/-- The message `self.fail('cannot_delete_protected', instances=...)`
raises (mixins.py:274-278, 330-331): the template
`Cannot delete ... because protected relation exists` instantiated with
the comma-joined string forms of the protected objects. -/
def cannotDeleteMsg (listing : String) : String :=
  "Cannot delete " ++ listing ++ " because protected relation exists"

/-- The body of `delete_reverse_relations_if_need` (mixins.py:305-331)
over an already-reversed relation list, each relation given with the
key set extracted from its payload: delete the linked children whose
keys the payload does not claim; when the storage layer protects any of
them, the whole queryset delete aborts (nothing of that relation is
deleted) and the `cannot_delete_protected` failure is raised, stopping
the iteration.  The middle component is the processing trace: the field
names in the order the loop handled them. -/
def deleteRelationsGo :
    List (String × List Nat) → RState →
      RState × List String × Option NestedError
  | [], st => (st, [], none)
  | (f, pks) :: rest, st =>
      let doomed := st.children.filter
        (fun c => c.rel == f && !(pks.contains c.pk))
      if doomed.isEmpty then
        let r := deleteRelationsGo rest st
        (r.1, f :: r.2.1, r.2.2)
      else
        let protectedObjs := (doomed.map (fun c => c.blockers)).flatten
        if protectedObjs.isEmpty then
          let r := deleteRelationsGo rest
            ⟨st.children.filter (fun c => !(c.rel == f && !(pks.contains c.pk)))⟩
          (r.1, f :: r.2.1, r.2.2)
        else
          (st, [f], some (.cannotDeleteProtected
            (cannotDeleteMsg (String.intercalate ", " protectedObjs))))

/-- `NestedUpdateMixin.delete_reverse_relations_if_need`
(mixins.py:300-331): reverse the declared relation order
(`OrderedDict(reversed(list(reverse_relations.items())))`) and run the
deletion loop. -/
def delete_reverse_relations_if_need (rels : List (String × List Nat))
    (st : RState) : RState × List String × Option NestedError :=
  deleteRelationsGo rels.reverse st


theorem find?_congr {α : Type} {l : List α} {p q : α → Bool}
    (h : ∀ a ∈ l, p a = q a) : l.find? p = l.find? q := by
  induction l with
  | nil => rfl
  | cons a l ih =>
      simp only [List.find?_cons]
      rw [h a (by simp)]
      cases q a
      · exact ih (fun x hx => h x (by simp [hx]))
      · rfl

theorem specMatch_eq_lookup (snap : List Child) (d : ChildData) :
    specMatch snap d = lookupInst snap (getRelatedPk d.pk) := by
  cases h : getRelatedPk d.pk <;> simp [specMatch, lookupInst, h]

theorem lookupInst_some {snap : List Child} {k? : Option Nat} {c : Child}
    (h : lookupInst snap k? = some c) :
    ∃ k, k? = some k ∧ c.pk = k ∧ c ∈ snap := by
  cases k? with
  | none => simp [lookupInst] at h
  | some k =>
      have hf : snap.find? (fun c' => c'.pk == k) = some c := by
        simpa [lookupInst] using h
      have hb := List.find?_some hf
      exact ⟨k, rfl, by simpa using hb, List.mem_of_find?_eq_some hf⟩

theorem revLoop_char (p : Nat) (snap : List Child) :
    ∀ (ds : List ChildData) (s : Store),
      (∀ d ∈ ds, d.valid = true) →
      (ds.filterMap (fun d => getRelatedPk d.pk)).Nodup →
      (∀ c ∈ snap, c.pk < s.nextPk) →
      revLoop p snap s ds =
        (⟨s.children.map (updByData p snap ds) ++
            specNewChildren p snap s.nextPk ds,
          s.nextPk + specCreatedCount snap ds⟩,
          specPayload snap s.nextPk ds,
          List.replicate ds.length none,
          specSavedPks snap s.nextPk ds) := by
  intro ds
  induction ds with
  | nil =>
      intro s _ _ _
      have hfun : updByData p snap [] = fun x => x :=
        funext (fun x => by unfold updByData; rfl)
      simp [revLoop, specNewChildren, specCreatedCount, specPayload,
        specSavedPks, hfun]
  | cons d ds ih =>
      intro s hv hnd hsnap
      have hdv : d.valid = true := hv d (by simp)
      cases hlook : lookupInst snap (getRelatedPk d.pk) with
      | some c =>
          obtain ⟨k, hk, hck, hcmem⟩ := lookupInst_some hlook
          have hcons0 : ((d :: ds).filterMap (fun d' => getRelatedPk d'.pk)) =
              k :: ds.filterMap (fun d' => getRelatedPk d'.pk) := by
            simp [List.filterMap_cons, hk]
          rw [hcons0] at hnd
          have hknotin : k ∉ ds.filterMap (fun d' => getRelatedPk d'.pk) :=
            (List.nodup_cons.mp hnd).1
          have hndtail : (ds.filterMap (fun d' => getRelatedPk d'.pk)).Nodup :=
            (List.nodup_cons.mp hnd).2
          have hrest := ih
            (⟨s.children.map
                (fun x => if x.pk == c.pk then ⟨c.pk, d.attrs, some p⟩ else x),
              s.nextPk⟩)
            (fun d' hd' => hv d' (by simp [hd']))
            hndtail
            (fun c' hc' => hsnap c' hc')
          have hstep : revLoop p snap s (d :: ds) =
              ((revLoop p snap
                  ⟨s.children.map
                    (fun x => if x.pk == c.pk then ⟨c.pk, d.attrs, some p⟩ else x),
                    s.nextPk⟩ ds).1,
                { d with pk := some c.pk } ::
                  (revLoop p snap
                    ⟨s.children.map
                      (fun x => if x.pk == c.pk then ⟨c.pk, d.attrs, some p⟩ else x),
                      s.nextPk⟩ ds).2.1,
                none ::
                  (revLoop p snap
                    ⟨s.children.map
                      (fun x => if x.pk == c.pk then ⟨c.pk, d.attrs, some p⟩ else x),
                      s.nextPk⟩ ds).2.2.1,
                c.pk ::
                  (revLoop p snap
                    ⟨s.children.map
                      (fun x => if x.pk == c.pk then ⟨c.pk, d.attrs, some p⟩ else x),
                      s.nextPk⟩ ds).2.2.2) := by
            simp [revLoop, hdv, hlook, saveNested]
          rw [hstep, hrest]
          have hpoint : ∀ x,
              updByData p snap ds
                (if x.pk == c.pk then ⟨c.pk, d.attrs, some p⟩ else x) =
              updByData p snap (d :: ds) x := by
            intro x
            cases hb : (x.pk == c.pk) with
            | true =>
                have hx : x.pk = c.pk := eq_of_beq hb
                show updByData p snap ds ⟨c.pk, d.attrs, some p⟩ =
                  updByData p snap (d :: ds) x
                have hnone : ds.find?
                    (fun d' => matchesChild snap d' ⟨c.pk, d.attrs, some p⟩) =
                    none := by
                  rw [List.find?_eq_none]
                  intro d' hd' hmc
                  unfold matchesChild at hmc
                  cases hlook' : lookupInst snap (getRelatedPk d'.pk) with
                  | none => rw [hlook'] at hmc; simp at hmc
                  | some c₂ =>
                      rw [hlook'] at hmc
                      obtain ⟨k₂, hk₂, hck₂, _⟩ := lookupInst_some hlook'
                      have heq : c₂.pk = c.pk := by simpa using hmc
                      have hkk : k₂ = k := by omega
                      exact hknotin
                        (List.mem_filterMap.mpr ⟨d', hd', by rw [hk₂, hkk]⟩)
                have hsome : (d :: ds).find?
                    (fun d' => matchesChild snap d' x) = some d := by
                  apply List.find?_cons_of_pos
                  show matchesChild snap d x = true
                  unfold matchesChild
                  rw [hlook]
                  simp [hx]
                unfold updByData
                rw [hnone, hsome]
                simp [hx]
            | false =>
                show updByData p snap ds x = updByData p snap (d :: ds) x
                have hxne : ¬ c.pk = x.pk := by
                  intro h
                  rw [h] at hb
                  simp at hb
                have hdx : matchesChild snap d x = false := by
                  unfold matchesChild
                  rw [hlook]
                  simp [hxne]
                have hskip : (d :: ds).find?
                    (fun d' => matchesChild snap d' x) =
                    ds.find? (fun d' => matchesChild snap d' x) := by
                  simp [List.find?_cons, hdx]
                unfold updByData
                rw [hskip]
          have hmap : (s.children.map
              (fun x => if x.pk == c.pk then ⟨c.pk, d.attrs, some p⟩ else x)).map
                (updByData p snap ds) =
              s.children.map (updByData p snap (d :: ds)) := by
            rw [List.map_map]
            exact List.map_congr_left (fun x _ => hpoint x)
          have hmatch : specMatch snap d = some c := by
            rw [specMatch_eq_lookup, hlook]
          simp only [hmap, specNewChildren, specCreatedCount, specPayload,
            specSavedPks, hmatch, List.filter_cons, Option.isNone_some,
            Bool.false_eq_true, if_false, List.length_cons, List.replicate_succ]
      | none =>
          have hndtail : (ds.filterMap (fun d' => getRelatedPk d'.pk)).Nodup := by
            cases hgp : getRelatedPk d.pk with
            | none =>
                have heq : ((d :: ds).filterMap (fun d' => getRelatedPk d'.pk)) =
                    ds.filterMap (fun d' => getRelatedPk d'.pk) := by
                  simp [List.filterMap_cons, hgp]
                rwa [heq] at hnd
            | some k =>
                have heq : ((d :: ds).filterMap (fun d' => getRelatedPk d'.pk)) =
                    k :: ds.filterMap (fun d' => getRelatedPk d'.pk) := by
                  simp [List.filterMap_cons, hgp]
                rw [heq] at hnd
                exact (List.nodup_cons.mp hnd).2
          have hrest := ih
            (⟨s.children ++ [⟨s.nextPk, d.attrs, some p⟩], s.nextPk + 1⟩)
            (fun d' hd' => hv d' (by simp [hd']))
            hndtail
            (fun c' hc' => Nat.lt_succ_of_lt (hsnap c' hc'))
          have hstep : revLoop p snap s (d :: ds) =
              ((revLoop p snap
                  ⟨s.children ++ [⟨s.nextPk, d.attrs, some p⟩],
                    s.nextPk + 1⟩ ds).1,
                { d with pk := some s.nextPk } ::
                  (revLoop p snap
                    ⟨s.children ++ [⟨s.nextPk, d.attrs, some p⟩],
                      s.nextPk + 1⟩ ds).2.1,
                none ::
                  (revLoop p snap
                    ⟨s.children ++ [⟨s.nextPk, d.attrs, some p⟩],
                      s.nextPk + 1⟩ ds).2.2.1,
                s.nextPk ::
                  (revLoop p snap
                    ⟨s.children ++ [⟨s.nextPk, d.attrs, some p⟩],
                      s.nextPk + 1⟩ ds).2.2.2) := by
            simp [revLoop, hdv, hlook, saveNested]
          rw [hstep, hrest]
          have hdfalse : ∀ x, matchesChild snap d x = false := by
            intro x
            unfold matchesChild
            rw [hlook]
          have hnewfix : updByData p snap ds ⟨s.nextPk, d.attrs, some p⟩ =
              ⟨s.nextPk, d.attrs, some p⟩ := by
            unfold updByData
            have hn : ds.find?
                (fun d' => matchesChild snap d' ⟨s.nextPk, d.attrs, some p⟩) =
                none := by
              rw [List.find?_eq_none]
              intro d' _ hmc
              unfold matchesChild at hmc
              cases hlook' : lookupInst snap (getRelatedPk d'.pk) with
              | none => rw [hlook'] at hmc; simp at hmc
              | some c₂ =>
                  rw [hlook'] at hmc
                  obtain ⟨k₂, _, hck₂, hmem₂⟩ := lookupInst_some hlook'
                  have h1 : c₂.pk = s.nextPk := by simpa using hmc
                  have h2 : c₂.pk < s.nextPk := hsnap c₂ hmem₂
                  omega
            rw [hn]
          have hskip : ∀ x,
              updByData p snap ds x = updByData p snap (d :: ds) x := by
            intro x
            unfold updByData
            have hskip0 : (d :: ds).find?
                (fun d' => matchesChild snap d' x) =
                ds.find? (fun d' => matchesChild snap d' x) := by
              simp [List.find?_cons, hdfalse]
            rw [hskip0]
          have hmatch : specMatch snap d = none := by
            rw [specMatch_eq_lookup, hlook]
          have hmap : (s.children ++ [(⟨s.nextPk, d.attrs, some p⟩ : Child)]).map
              (updByData p snap ds) =
              s.children.map (updByData p snap (d :: ds)) ++
                [(⟨s.nextPk, d.attrs, some p⟩ : Child)] := by
            rw [List.map_append]
            congr 1
            · exact List.map_congr_left (fun x _ => hskip x)
            · simp only [List.map_cons, List.map_nil, hnewfix]
          simp only [hmap, specNewChildren, specCreatedCount, specPayload,
            specSavedPks, hmatch, List.filter_cons, Option.isNone_none,
            if_true, List.length_cons, List.replicate_succ, List.append_assoc,
            List.cons_append, List.nil_append, Prod.mk.injEq, Store.mk.injEq,
            true_and, and_true]
          omega


theorem contains_iff_mem {l : List Nat} {k : Nat} :
    l.contains k = true ↔ k ∈ l := by
  simp [List.contains]

theorem revLoop_errs (p : Nat) (snap : List Child) :
    ∀ (ds : List ChildData) (s : Store),
      (revLoop p snap s ds).2.2.1 = specErrSlots ds := by
  intro ds
  induction ds with
  | nil => intro s; rfl
  | cons d ds ih =>
      intro s
      cases hdv : d.valid with
      | true => simp [revLoop, hdv, specErrSlots, ih]
      | false => simp [revLoop, hdv, specErrSlots, ih]

theorem any_isSome_replicate_none (n : Nat) :
    ((List.replicate n (none : ErrSlot)).any (fun e => e.isSome)) = false := by
  induction n with
  | zero => rfl
  | succ k ih => simpa [List.replicate_succ] using ih

theorem extract_cons_somePk (d : ChildData) (k : Nat) (hk : 0 < k)
    (ds : List ChildData) :
    extract_related_pks ({ d with pk := some k } :: ds) =
      k :: extract_related_pks ds := by
  unfold extract_related_pks
  have h1 : dataTruthy { d with pk := some k } = true := by simp [dataTruthy]
  have h2 : getRelatedPk (some k) = some k := by
    simp [getRelatedPk, Nat.pos_iff_ne_zero.mp hk]
  simp [List.filter_cons, h1, List.filterMap_cons, h2]

theorem specMatch_some {snap : List Child} {d : ChildData} {c : Child}
    (h : specMatch snap d = some c) :
    getRelatedPk d.pk = some c.pk ∧ c ∈ snap := by
  rw [specMatch_eq_lookup] at h
  obtain ⟨k, hk, hck, hmem⟩ := lookupInst_some h
  exact ⟨by rw [hk, hck], hmem⟩

theorem extract_specPayload (snap : List Child)
    (hpos : ∀ c ∈ snap, 0 < c.pk) :
    ∀ (ds : List ChildData) (next : Nat), 0 < next →
      extract_related_pks (specPayload snap next ds) =
        specSavedPks snap next ds := by
  intro ds
  induction ds with
  | nil => intro next _; rfl
  | cons d ds ih =>
      intro next hnext
      cases hm : specMatch snap d with
      | some c =>
          have hc : c ∈ snap := (specMatch_some hm).2
          simp only [specPayload, hm, specSavedPks]
          rw [extract_cons_somePk d c.pk (hpos c hc) _, ih next hnext]
      | none =>
          simp only [specPayload, hm, specSavedPks]
          rw [extract_cons_somePk d next hnext _, ih (next + 1) (Nat.succ_pos _)]

theorem specSaved_of_match (snap : List Child) :
    ∀ (ds : List ChildData) (next : Nat) (d : ChildData) (c : Child),
      d ∈ ds → specMatch snap d = some c →
      c.pk ∈ specSavedPks snap next ds := by
  intro ds
  induction ds with
  | nil => intro next d c h _; simp at h
  | cons d₀ ds ih =>
      intro next d c hmem hm
      rcases List.mem_cons.mp hmem with h | h
      · subst h
        simp only [specSavedPks, hm]
        exact List.mem_cons_self _ _
      · cases hm₀ : specMatch snap d₀ with
        | some c₀ =>
            simp only [specSavedPks, hm₀]
            exact List.mem_cons_of_mem _ (ih next d c h hm)
        | none =>
            simp only [specSavedPks, hm₀]
            exact List.mem_cons_of_mem _ (ih (next + 1) d c h hm)

theorem specSaved_mem_cases (snap : List Child) :
    ∀ (ds : List ChildData) (next k : Nat),
      k ∈ specSavedPks snap next ds →
      (∃ d ∈ ds, getRelatedPk d.pk = some k) ∨ next ≤ k := by
  intro ds
  induction ds with
  | nil => intro next k h; simp [specSavedPks] at h
  | cons d ds ih =>
      intro next k h
      cases hm : specMatch snap d with
      | some c =>
          rw [specSavedPks, hm] at h
          rcases List.mem_cons.mp h with h | h
          · subst h
            exact Or.inl ⟨d, by simp, (specMatch_some hm).1⟩
          · rcases ih next k h with ⟨d', hd', hp⟩ | hle
            · exact Or.inl ⟨d', by simp [hd'], hp⟩
            · exact Or.inr hle
      | none =>
          rw [specSavedPks, hm] at h
          rcases List.mem_cons.mp h with h | h
          · subst h
            exact Or.inr (Nat.le_refl _)
          · rcases ih (next + 1) k h with ⟨d', hd', hp⟩ | hle
            · exact Or.inl ⟨d', by simp [hd'], hp⟩
            · exact Or.inr (by omega)

theorem specNew_mem (p : Nat) (snap : List Child) :
    ∀ (ds : List ChildData) (next : Nat) (x : Child),
      x ∈ specNewChildren p snap next ds →
      x.parent = some p ∧ x.pk ∈ specSavedPks snap next ds ∧ next ≤ x.pk := by
  intro ds
  induction ds with
  | nil => intro next x h; simp [specNewChildren] at h
  | cons d ds ih =>
      intro next x h
      cases hm : specMatch snap d with
      | some c =>
          rw [specNewChildren, hm] at h
          obtain ⟨hp, hmem, hle⟩ := ih next x h
          exact ⟨hp, by simp only [specSavedPks, hm]; exact List.mem_cons_of_mem _ hmem, hle⟩
      | none =>
          rw [specNewChildren, hm] at h
          rcases List.mem_cons.mp h with h | h
          · subst h
            refine ⟨rfl, ?_, Nat.le_refl _⟩
            simp only [specSavedPks, hm]
            exact List.mem_cons_self _ _
          · obtain ⟨hp, hmem, hle⟩ := ih (next + 1) x h
            refine ⟨hp, ?_, by omega⟩
            simp only [specSavedPks, hm]
            exact List.mem_cons_of_mem _ hmem

theorem delete_reverse_o2m_eq (s : Store) (p : Nat) (ds : List ChildData) :
    delete_reverse_o2m s p ds =
      ⟨s.children.filter (fun c =>
          !(c.parent == some p &&
            !((extract_related_pks ds).contains c.pk))), s.nextPk⟩ := by
  unfold delete_reverse_o2m
  by_cases h : ((linkedPks s p).any
      (fun k => !((extract_related_pks ds).contains k))) = true
  · rw [if_pos h]
  · rw [if_neg h]
    have hfalse : ((linkedPks s p).any
        (fun k => !((extract_related_pks ds).contains k))) = false := by
      cases hb : ((linkedPks s p).any
          (fun k => !((extract_related_pks ds).contains k))) with
      | true => exact absurd hb h
      | false => rfl
    have hall := List.any_eq_false.mp hfalse
    have hkeep : ∀ c ∈ s.children,
        (!(c.parent == some p &&
          !((extract_related_pks ds).contains c.pk))) = true := by
      intro c hc
      by_cases hpar : c.parent = some p
      · have hmem : c.pk ∈ linkedPks s p := by
          unfold linkedPks linkedChildren
          exact List.mem_map.mpr ⟨c, List.mem_filter.mpr ⟨hc, by simp [hpar]⟩, rfl⟩
        have h1 := hall c.pk hmem
        have hct : (extract_related_pks ds).contains c.pk = true := by
          cases hb : (extract_related_pks ds).contains c.pk with
          | true => rfl
          | false => rw [hb] at h1; simp at h1
        simp
        exact Or.inr (contains_iff_mem.mp hct)
      · simp [hpar]
    rw [List.filter_eq_self.mpr hkeep]

theorem filter_map_eq_filterMap {α β : Type} (f : α → β) (q : β → Bool)
    (g : α → Option β) :
    ∀ (l : List α),
      (∀ x ∈ l, (if q (f x) then some (f x) else none) = g x) →
      (l.map f).filter q = l.filterMap g := by
  intro l
  induction l with
  | nil => intro _; rfl
  | cons a l ih =>
      intro h
      have ha := h a (by simp)
      have hrest := ih (fun x hx => h x (by simp [hx]))
      simp only [List.map_cons, List.filter_cons, List.filterMap_cons, ← ha]
      by_cases hq : q (f a) = true
      · simp [hq, hrest]
      · have hqf : q (f a) = false := by
          cases hb : q (f a) with
          | true => exact absurd hb hq
          | false => rfl
        simp [hqf, hrest]


theorem keep_elem_char (s : Store) (p : Nat) (ds : List ChildData)
    (hnodup : (s.children.map (fun c => c.pk)).Nodup)
    (hbound : ∀ c ∈ s.children, 0 < c.pk ∧ c.pk < s.nextPk) :
    ∀ x ∈ s.children,
      (if (!((updByData p (linkedChildren s p) ds x).parent == some p &&
            !((specSavedPks (linkedChildren s p) s.nextPk ds).contains
              (updByData p (linkedChildren s p) ds x).pk)))
        then some (updByData p (linkedChildren s p) ds x) else none) =
      (if x.parent == some p then
          match ds.find? (fun d => getRelatedPk d.pk == some x.pk) with
          | some d => some (⟨x.pk, d.attrs, some p⟩ : Child)
          | none => none
        else some x) := by
  intro x hx
  by_cases hpar : x.parent = some p
  · have hxsnap : x ∈ linkedChildren s p :=
      List.mem_filter.mpr ⟨hx, by simp [hpar]⟩
    have hcong : ds.find? (fun d => matchesChild (linkedChildren s p) d x) =
        ds.find? (fun d => getRelatedPk d.pk == some x.pk) := by
      apply find?_congr
      intro d _
      unfold matchesChild
      cases hgp : getRelatedPk d.pk with
      | none => simp [lookupInst]
      | some k =>
          cases hfind : (linkedChildren s p).find? (fun c => c.pk == k) with
          | none =>
              have hkx : k ≠ x.pk := by
                intro he
                have hs : ((linkedChildren s p).find?
                    (fun c => c.pk == k)).isSome := by
                  rw [List.find?_isSome]
                  exact ⟨x, hxsnap, by simp [he]⟩
                rw [hfind] at hs
                simp at hs
              have hne : k ≠ x.pk := hkx
              simp [lookupInst, hfind, hne]
          | some c =>
              have hb0 := List.find?_some hfind
              have hcpk : c.pk = k := by simpa using hb0
              have hl : lookupInst (linkedChildren s p) (some k) = some c := by
                simp [lookupInst, hfind]
              rw [hl]
              show (c.pk == x.pk) = ((some k : Option Nat) == some x.pk)
              rw [hcpk]
              cases hb : (k == x.pk) <;> simp_all
    cases hfd : ds.find? (fun d => getRelatedPk d.pk == some x.pk) with
    | some d =>
        have hupd : updByData p (linkedChildren s p) ds x =
            ⟨x.pk, d.attrs, some p⟩ := by
          unfold updByData
          rw [hcong, hfd]
        have hdmem : d ∈ ds := List.mem_of_find?_eq_some hfd
        have hdp : getRelatedPk d.pk = some x.pk := by
          have := List.find?_some hfd
          simpa using this
        have hsome : ((linkedChildren s p).find?
            (fun c => c.pk == x.pk)).isSome := by
          rw [List.find?_isSome]
          exact ⟨x, hxsnap, by simp⟩
        obtain ⟨c, hc⟩ := Option.isSome_iff_exists.mp hsome
        have hsmc : specMatch (linkedChildren s p) d = some c := by
          unfold specMatch
          rw [hdp]
          exact hc
        have hb1 := List.find?_some hc
        have hcpk : c.pk = x.pk := by simpa using hb1
        have hmemsaved : x.pk ∈ specSavedPks (linkedChildren s p) s.nextPk ds := by
          rw [← hcpk]
          exact specSaved_of_match _ ds s.nextPk d c hdmem hsmc
        have hcontains : (specSavedPks (linkedChildren s p) s.nextPk ds).contains
            x.pk = true := contains_iff_mem.mpr hmemsaved
        rw [hupd]
        simp [hpar, hcontains, hmemsaved]
    | none =>
        have hupd : updByData p (linkedChildren s p) ds x = x := by
          unfold updByData
          rw [hcong, hfd]
        have hnot : x.pk ∉ specSavedPks (linkedChildren s p) s.nextPk ds := by
          intro hmem
          rcases specSaved_mem_cases _ ds s.nextPk x.pk hmem with ⟨d, hd, hdp⟩ | hge
          · have := List.find?_eq_none.mp hfd d hd
            simp [hdp] at this
          · have := (hbound x hx).2
            omega
        have hcontains : (specSavedPks (linkedChildren s p) s.nextPk ds).contains
            x.pk = false := by
          cases hb : (specSavedPks (linkedChildren s p) s.nextPk ds).contains x.pk with
          | true => exact absurd (contains_iff_mem.mp hb) hnot
          | false => rfl
        rw [hupd]
        simp [hpar, hcontains, hnot]
  · have hnotmem : x ∉ linkedChildren s p := by
      intro hmem
      exact hpar (by simpa using (List.mem_filter.mp hmem).2)
    have hupd : updByData p (linkedChildren s p) ds x = x := by
      unfold updByData
      have hn : ds.find? (fun d => matchesChild (linkedChildren s p) d x) =
          none := by
        rw [List.find?_eq_none]
        intro d _ hmc
        unfold matchesChild at hmc
        cases hl : lookupInst (linkedChildren s p) (getRelatedPk d.pk) with
        | none => rw [hl] at hmc; simp at hmc
        | some c =>
            rw [hl] at hmc
            obtain ⟨k, hk, hck, hcm⟩ := lookupInst_some hl
            have hcx : c.pk = x.pk := by simpa using hmc
            have hcchild : c ∈ s.children := (List.mem_filter.mp hcm).1
            have hceq : c = x := List.inj_on_of_nodup_map hnodup hcchild hx hcx
            exact hnotmem (hceq ▸ hcm)
      rw [hn]
    rw [hupd]
    simp [hpar]

theorem nestedUpdateReverseO2M_spec (fieldName : String) (s : Store) (p : Nat)
    (ds : List ChildData) (hwf : s.wf)
    (hv : ∀ d ∈ ds, d.valid = true)
    (hnd : (ds.filterMap (fun d => getRelatedPk d.pk)).Nodup) :
    nestedUpdateReverseO2M fieldName s p ds =
      (specFinalStore s p ds,
        specPayload (linkedChildren s p) s.nextPk ds, none) := by
  obtain ⟨hnodup, hnpos, hbound⟩ := hwf
  have hsnaplt : ∀ c ∈ linkedChildren s p, c.pk < s.nextPk := fun c hc =>
    (hbound c (List.mem_filter.mp hc).1).2
  have hsnappos : ∀ c ∈ linkedChildren s p, 0 < c.pk := fun c hc =>
    (hbound c (List.mem_filter.mp hc).1).1
  have hchar := revLoop_char p (linkedChildren s p) ds s hv hnd hsnaplt
  have hrelated :
      extract_related_pks (specPayload (linkedChildren s p) s.nextPk ds) =
        specSavedPks (linkedChildren s p) s.nextPk ds :=
    extract_specPayload _ hsnappos ds s.nextPk hnpos
  have hupd : update_or_create_reverse_o2m fieldName s p ds =
      (⟨s.children.map (updByData p (linkedChildren s p) ds) ++
          specNewChildren p (linkedChildren s p) s.nextPk ds,
        s.nextPk + specCreatedCount (linkedChildren s p) ds⟩,
        specPayload (linkedChildren s p) s.nextPk ds, none) := by
    simp only [update_or_create_reverse_o2m]
    rw [hchar]
    simp [any_isSome_replicate_none]
  simp only [nestedUpdateReverseO2M]
  rw [hupd]
  have hdel : delete_reverse_o2m
      (⟨s.children.map (updByData p (linkedChildren s p) ds) ++
          specNewChildren p (linkedChildren s p) s.nextPk ds,
        s.nextPk + specCreatedCount (linkedChildren s p) ds⟩ : Store) p
      (specPayload (linkedChildren s p) s.nextPk ds) =
      specFinalStore s p ds := by
    rw [delete_reverse_o2m_eq]
    simp only [hrelated]
    rw [List.filter_append]
    have hpart2 : (specNewChildren p (linkedChildren s p) s.nextPk ds).filter
        (fun c => !(c.parent == some p &&
          !((specSavedPks (linkedChildren s p) s.nextPk ds).contains c.pk))) =
        specNewChildren p (linkedChildren s p) s.nextPk ds := by
      apply List.filter_eq_self.mpr
      intro c hc
      obtain ⟨hcp, hcm, _⟩ := specNew_mem p _ ds s.nextPk c hc
      have hct2 : (specSavedPks (linkedChildren s p) s.nextPk ds).contains c.pk =
          true := contains_iff_mem.mpr hcm
      simp [hcp, hct2, hcm]
    have hpart1 : (s.children.map (updByData p (linkedChildren s p) ds)).filter
        (fun c => !(c.parent == some p &&
          !((specSavedPks (linkedChildren s p) s.nextPk ds).contains c.pk))) =
        specKept s p ds := by
      apply filter_map_eq_filterMap
      exact keep_elem_char s p ds hnodup hbound
    rw [hpart1, hpart2]
    rfl
  rw [hdel]


theorem specMatchM_eq_lookupM (snap : List MChild) (d : ChildData) :
    specMatchM snap d = lookupInstM snap (getRelatedPk d.pk) := by
  cases h : getRelatedPk d.pk <;> simp [specMatchM, lookupInstM, h]

theorem lookupInstM_some {snap : List MChild} {k? : Option Nat} {c : MChild}
    (h : lookupInstM snap k? = some c) :
    ∃ k, k? = some k ∧ c.pk = k ∧ c ∈ snap := by
  cases k? with
  | none => simp [lookupInstM] at h
  | some k =>
      have hf : snap.find? (fun c' => c'.pk == k) = some c := by
        simpa [lookupInstM] using h
      have hb := List.find?_some hf
      exact ⟨k, rfl, by simpa using hb, List.mem_of_find?_eq_some hf⟩

theorem revLoopM_char (snap : List MChild) :
    ∀ (ds : List ChildData) (s : MStore),
      (∀ d ∈ ds, d.valid = true) →
      (ds.filterMap (fun d => getRelatedPk d.pk)).Nodup →
      (∀ c ∈ snap, c.pk < s.nextPk) →
      revLoopM snap s ds =
        (⟨s.children.map (updByDataM snap ds) ++
            specNewChildrenM snap s.nextPk ds,
          s.assoc,
          s.nextPk + specCreatedCountM snap ds⟩,
          specPayloadM snap s.nextPk ds,
          List.replicate ds.length none,
          specSavedPksM snap s.nextPk ds) := by
  intro ds
  induction ds with
  | nil =>
      intro s _ _ _
      have hfun : updByDataM snap [] = fun x => x :=
        funext (fun x => by unfold updByDataM; rfl)
      simp [revLoopM, specNewChildrenM, specCreatedCountM, specPayloadM,
        specSavedPksM, hfun]
  | cons d ds ih =>
      intro s hv hnd hsnap
      have hdv : d.valid = true := hv d (by simp)
      cases hlook : lookupInstM snap (getRelatedPk d.pk) with
      | some c =>
          obtain ⟨k, hk, hck, hcmem⟩ := lookupInstM_some hlook
          have hcons0 : ((d :: ds).filterMap (fun d' => getRelatedPk d'.pk)) =
              k :: ds.filterMap (fun d' => getRelatedPk d'.pk) := by
            simp [List.filterMap_cons, hk]
          rw [hcons0] at hnd
          have hknotin : k ∉ ds.filterMap (fun d' => getRelatedPk d'.pk) :=
            (List.nodup_cons.mp hnd).1
          have hndtail : (ds.filterMap (fun d' => getRelatedPk d'.pk)).Nodup :=
            (List.nodup_cons.mp hnd).2
          have hrest := ih
            (⟨s.children.map
                (fun x => if x.pk == c.pk then ⟨c.pk, d.attrs⟩ else x),
              s.assoc, s.nextPk⟩)
            (fun d' hd' => hv d' (by simp [hd']))
            hndtail
            (fun c' hc' => hsnap c' hc')
          have hstep : revLoopM snap s (d :: ds) =
              ((revLoopM snap
                  ⟨s.children.map
                    (fun x => if x.pk == c.pk then ⟨c.pk, d.attrs⟩ else x),
                    s.assoc, s.nextPk⟩ ds).1,
                { d with pk := some c.pk } ::
                  (revLoopM snap
                    ⟨s.children.map
                      (fun x => if x.pk == c.pk then ⟨c.pk, d.attrs⟩ else x),
                      s.assoc, s.nextPk⟩ ds).2.1,
                none ::
                  (revLoopM snap
                    ⟨s.children.map
                      (fun x => if x.pk == c.pk then ⟨c.pk, d.attrs⟩ else x),
                      s.assoc, s.nextPk⟩ ds).2.2.1,
                c.pk ::
                  (revLoopM snap
                    ⟨s.children.map
                      (fun x => if x.pk == c.pk then ⟨c.pk, d.attrs⟩ else x),
                      s.assoc, s.nextPk⟩ ds).2.2.2) := by
            simp [revLoopM, hdv, hlook, saveNestedM]
          rw [hstep, hrest]
          have hpoint : ∀ x,
              updByDataM snap ds
                (if x.pk == c.pk then ⟨c.pk, d.attrs⟩ else x) =
              updByDataM snap (d :: ds) x := by
            intro x
            cases hb : (x.pk == c.pk) with
            | true =>
                have hx : x.pk = c.pk := eq_of_beq hb
                show updByDataM snap ds ⟨c.pk, d.attrs⟩ =
                  updByDataM snap (d :: ds) x
                have hnone : ds.find?
                    (fun d' => matchesChildM snap d' ⟨c.pk, d.attrs⟩) =
                    none := by
                  rw [List.find?_eq_none]
                  intro d' hd' hmc
                  unfold matchesChildM at hmc
                  cases hlook' : lookupInstM snap (getRelatedPk d'.pk) with
                  | none => rw [hlook'] at hmc; simp at hmc
                  | some c₂ =>
                      rw [hlook'] at hmc
                      obtain ⟨k₂, hk₂, hck₂, _⟩ := lookupInstM_some hlook'
                      have heq : c₂.pk = c.pk := by simpa using hmc
                      have hkk : k₂ = k := by omega
                      exact hknotin
                        (List.mem_filterMap.mpr ⟨d', hd', by rw [hk₂, hkk]⟩)
                have hsome : (d :: ds).find?
                    (fun d' => matchesChildM snap d' x) = some d := by
                  apply List.find?_cons_of_pos
                  show matchesChildM snap d x = true
                  unfold matchesChildM
                  rw [hlook]
                  simp [hx]
                unfold updByDataM
                rw [hnone, hsome]
                simp [hx]
            | false =>
                show updByDataM snap ds x = updByDataM snap (d :: ds) x
                have hxne : ¬ c.pk = x.pk := by
                  intro h
                  rw [h] at hb
                  simp at hb
                have hdx : matchesChildM snap d x = false := by
                  unfold matchesChildM
                  rw [hlook]
                  simp [hxne]
                have hskip : (d :: ds).find?
                    (fun d' => matchesChildM snap d' x) =
                    ds.find? (fun d' => matchesChildM snap d' x) := by
                  simp [List.find?_cons, hdx]
                unfold updByDataM
                rw [hskip]
          have hmap : (s.children.map
              (fun x => if x.pk == c.pk then ⟨c.pk, d.attrs⟩ else x)).map
                (updByDataM snap ds) =
              s.children.map (updByDataM snap (d :: ds)) := by
            rw [List.map_map]
            exact List.map_congr_left (fun x _ => hpoint x)
          have hmatch : specMatchM snap d = some c := by
            rw [specMatchM_eq_lookupM, hlook]
          simp only [hmap, specNewChildrenM, specCreatedCountM, specPayloadM,
            specSavedPksM, hmatch, List.filter_cons, Option.isNone_some,
            Bool.false_eq_true, if_false, List.length_cons, List.replicate_succ]
      | none =>
          have hndtail : (ds.filterMap (fun d' => getRelatedPk d'.pk)).Nodup := by
            cases hgp : getRelatedPk d.pk with
            | none =>
                have heq : ((d :: ds).filterMap (fun d' => getRelatedPk d'.pk)) =
                    ds.filterMap (fun d' => getRelatedPk d'.pk) := by
                  simp [List.filterMap_cons, hgp]
                rwa [heq] at hnd
            | some k =>
                have heq : ((d :: ds).filterMap (fun d' => getRelatedPk d'.pk)) =
                    k :: ds.filterMap (fun d' => getRelatedPk d'.pk) := by
                  simp [List.filterMap_cons, hgp]
                rw [heq] at hnd
                exact (List.nodup_cons.mp hnd).2
          have hrest := ih
            (⟨s.children ++ [⟨s.nextPk, d.attrs⟩], s.assoc, s.nextPk + 1⟩)
            (fun d' hd' => hv d' (by simp [hd']))
            hndtail
            (fun c' hc' => Nat.lt_succ_of_lt (hsnap c' hc'))
          have hstep : revLoopM snap s (d :: ds) =
              ((revLoopM snap
                  ⟨s.children ++ [⟨s.nextPk, d.attrs⟩],
                    s.assoc, s.nextPk + 1⟩ ds).1,
                { d with pk := some s.nextPk } ::
                  (revLoopM snap
                    ⟨s.children ++ [⟨s.nextPk, d.attrs⟩],
                      s.assoc, s.nextPk + 1⟩ ds).2.1,
                none ::
                  (revLoopM snap
                    ⟨s.children ++ [⟨s.nextPk, d.attrs⟩],
                      s.assoc, s.nextPk + 1⟩ ds).2.2.1,
                s.nextPk ::
                  (revLoopM snap
                    ⟨s.children ++ [⟨s.nextPk, d.attrs⟩],
                      s.assoc, s.nextPk + 1⟩ ds).2.2.2) := by
            simp [revLoopM, hdv, hlook, saveNestedM]
          rw [hstep, hrest]
          have hdfalse : ∀ x, matchesChildM snap d x = false := by
            intro x
            unfold matchesChildM
            rw [hlook]
          have hnewfix : updByDataM snap ds ⟨s.nextPk, d.attrs⟩ =
              ⟨s.nextPk, d.attrs⟩ := by
            unfold updByDataM
            have hn : ds.find?
                (fun d' => matchesChildM snap d' ⟨s.nextPk, d.attrs⟩) =
                none := by
              rw [List.find?_eq_none]
              intro d' _ hmc
              unfold matchesChildM at hmc
              cases hlook' : lookupInstM snap (getRelatedPk d'.pk) with
              | none => rw [hlook'] at hmc; simp at hmc
              | some c₂ =>
                  rw [hlook'] at hmc
                  obtain ⟨k₂, _, hck₂, hmem₂⟩ := lookupInstM_some hlook'
                  have h1 : c₂.pk = s.nextPk := by simpa using hmc
                  have h2 : c₂.pk < s.nextPk := hsnap c₂ hmem₂
                  omega
            rw [hn]
          have hskip : ∀ x,
              updByDataM snap ds x = updByDataM snap (d :: ds) x := by
            intro x
            unfold updByDataM
            have hskip0 : (d :: ds).find?
                (fun d' => matchesChildM snap d' x) =
                ds.find? (fun d' => matchesChildM snap d' x) := by
              simp [List.find?_cons, hdfalse]
            rw [hskip0]
          have hmatch : specMatchM snap d = none := by
            rw [specMatchM_eq_lookupM, hlook]
          have hmap : (s.children ++ [(⟨s.nextPk, d.attrs⟩ : MChild)]).map
              (updByDataM snap ds) =
              s.children.map (updByDataM snap (d :: ds)) ++
                [(⟨s.nextPk, d.attrs⟩ : MChild)] := by
            rw [List.map_append]
            congr 1
            · exact List.map_congr_left (fun x _ => hskip x)
            · simp only [List.map_cons, List.map_nil, hnewfix]
          simp only [hmap, specNewChildrenM, specCreatedCountM, specPayloadM,
            specSavedPksM, hmatch, List.filter_cons, Option.isNone_none,
            if_true, List.length_cons, List.replicate_succ, List.append_assoc,
            List.cons_append, List.nil_append, Prod.mk.injEq, MStore.mk.injEq,
            true_and, and_true]
          omega



theorem specMatchM_some {snap : List MChild} {d : ChildData} {c : MChild}
    (h : specMatchM snap d = some c) :
    getRelatedPk d.pk = some c.pk ∧ c ∈ snap := by
  rw [specMatchM_eq_lookupM] at h
  obtain ⟨k, hk, hck, hmem⟩ := lookupInstM_some h
  exact ⟨by rw [hk, hck], hmem⟩

theorem extract_specPayloadM (snap : List MChild)
    (hpos : ∀ c ∈ snap, 0 < c.pk) :
    ∀ (ds : List ChildData) (next : Nat), 0 < next →
      extract_related_pks (specPayloadM snap next ds) =
        specSavedPksM snap next ds := by
  intro ds
  induction ds with
  | nil => intro next _; rfl
  | cons d ds ih =>
      intro next hnext
      cases hm : specMatchM snap d with
      | some c =>
          have hc : c ∈ snap := (specMatchM_some hm).2
          simp only [specPayloadM, hm, specSavedPksM]
          rw [extract_cons_somePk d c.pk (hpos c hc) _, ih next hnext]
      | none =>
          simp only [specPayloadM, hm, specSavedPksM]
          rw [extract_cons_somePk d next hnext _, ih (next + 1) (Nat.succ_pos _)]

theorem matchesChildM_eq_any (snap : List MChild) (d : ChildData)
    (x : MChild) :
    matchesChildM snap d x =
      (specMatchM snap d).any (fun m => m.pk == x.pk) := by
  unfold matchesChildM
  rw [specMatchM_eq_lookupM]
  cases h : lookupInstM snap (getRelatedPk d.pk) <;> simp [h]

theorem nestedUpdateReverseM2M_spec (fieldName : String) (s : MStore)
    (ds : List ChildData) (hwf : s.wf)
    (hv : ∀ d ∈ ds, d.valid = true)
    (hnd : (ds.filterMap (fun d => getRelatedPk d.pk)).Nodup) :
    nestedUpdateReverseM2M fieldName s ds =
      (specFinalMStore s ds,
        specPayloadM (massocChildren s) s.nextPk ds, none) := by
  obtain ⟨hnodup, hnpos, hbound, hassocnd, hassocsub⟩ := hwf
  have hsnapsub : ∀ c ∈ massocChildren s, c ∈ s.children := fun c hc =>
    (List.mem_filter.mp hc).1
  have hsnaplt : ∀ c ∈ massocChildren s, c.pk < s.nextPk := fun c hc =>
    (hbound c (hsnapsub c hc)).2
  have hsnappos : ∀ c ∈ massocChildren s, 0 < c.pk := fun c hc =>
    (hbound c (hsnapsub c hc)).1
  have hchar := revLoopM_char (massocChildren s) ds s hv hnd hsnaplt
  have hrelated := extract_specPayloadM (massocChildren s) hsnappos ds
    s.nextPk hnpos
  have hupd : update_or_create_reverse_m2m fieldName s ds =
      (⟨s.children.map (updByDataM (massocChildren s) ds) ++
          specNewChildrenM (massocChildren s) s.nextPk ds,
        specSavedPksM (massocChildren s) s.nextPk ds,
        s.nextPk + specCreatedCountM (massocChildren s) ds⟩,
        specPayloadM (massocChildren s) s.nextPk ds, none) := by
    simp only [update_or_create_reverse_m2m]
    rw [hchar]
    simp [any_isSome_replicate_none]
  simp only [nestedUpdateReverseM2M]
  rw [hupd]
  have hdel : delete_reverse_m2m
      (⟨s.children.map (updByDataM (massocChildren s) ds) ++
          specNewChildrenM (massocChildren s) s.nextPk ds,
        specSavedPksM (massocChildren s) s.nextPk ds,
        s.nextPk + specCreatedCountM (massocChildren s) ds⟩ : MStore)
      (specPayloadM (massocChildren s) s.nextPk ds) =
      (⟨s.children.map (updByDataM (massocChildren s) ds) ++
          specNewChildrenM (massocChildren s) s.nextPk ds,
        specSavedPksM (massocChildren s) s.nextPk ds,
        s.nextPk + specCreatedCountM (massocChildren s) ds⟩ : MStore) := by
    unfold delete_reverse_m2m
    rw [hrelated]
    have hfalse : ((specSavedPksM (massocChildren s) s.nextPk ds).any
        (fun k => !((specSavedPksM (massocChildren s) s.nextPk ds).contains
          k))) = false := by
      apply List.any_eq_false.mpr
      intro k hk
      simp [contains_iff_mem.mpr hk, hk]
    have hcond : ¬ (((specSavedPksM (massocChildren s) s.nextPk ds).any
        (fun k => !((specSavedPksM (massocChildren s) s.nextPk ds).contains
          k))) = true) := by
      rw [hfalse]
      simp
    rw [if_neg hcond]
  rw [hdel]
  have hmapeq : s.children.map (updByDataM (massocChildren s) ds) =
      s.children.map (fun c =>
        match ds.find? (fun d =>
            (specMatchM (massocChildren s) d).any (fun m => m.pk == c.pk)) with
        | some d => (⟨c.pk, d.attrs⟩ : MChild)
        | none => c) := by
    apply List.map_congr_left
    intro x _
    unfold updByDataM
    rw [find?_congr (fun d _ => matchesChildM_eq_any (massocChildren s) d x)]
  rw [hmapeq]
  rfl


theorem specErrSlots_any (ds : List ChildData) :
    (specErrSlots ds).any (fun e => e.isSome) =
      ds.any (fun d => !d.valid) := by
  induction ds with
  | nil => rfl
  | cons d ds ih =>
      cases hdv : d.valid <;> simp [specErrSlots, hdv] <;>
        simpa [specErrSlots] using ih

theorem update_or_create_reverse_o2m_err (f : String) (s : Store) (p : Nat)
    (ds : List ChildData) (hinv : ds.any (fun d => !d.valid) = true) :
    (update_or_create_reverse_o2m f s p ds).2.2 =
      some (.fieldList f (specErrSlots ds)) := by
  simp only [update_or_create_reverse_o2m]
  rw [revLoop_errs p (linkedChildren s p) ds s, specErrSlots_any, hinv]
  simp

theorem update_or_create_reverse_o2o_err (f : String) (s : Store) (p : Nat)
    (d : ChildData) (hdv : d.valid = false) :
    (update_or_create_reverse_o2o f s p d).2.2 =
      some (.fieldDetail f (some d.errDetail)) := by
  simp only [update_or_create_reverse_o2o]
  cases hpk : d.pk.isNone with
  | true =>
      cases hl : (linkedChildren s p).head? with
      | some c => simp [hpk, hl, revLoop, hdv]
      | none => simp [hpk, hl, revLoop, hdv]
  | false => simp [hpk, revLoop, hdv]

theorem deleteGo_trace :
    ∀ (rels : List (String × List Nat)) (st : RState),
      (deleteRelationsGo rels st).2.2 = none →
      (deleteRelationsGo rels st).2.1 = rels.map Prod.fst := by
  intro rels
  induction rels with
  | nil => intro st _; rfl
  | cons r rest ih =>
      intro st hok
      obtain ⟨f, pks⟩ := r
      by_cases h1 : (st.children.filter
          (fun c => c.rel == f && !(pks.contains c.pk))).isEmpty = true
      · simp only [deleteRelationsGo, h1, if_true] at hok ⊢
        simp only [List.map_cons]
        rw [ih st hok]
      · by_cases h2 : (((st.children.filter
            (fun c => c.rel == f && !(pks.contains c.pk))).map
              (fun c => c.blockers)).flatten).isEmpty = true
        · simp only [deleteRelationsGo, h1, h2, if_true, if_false,
            Bool.false_eq_true] at hok ⊢
          simp only [List.map_cons]
          rw [ih _ hok]
        · simp only [deleteRelationsGo, h1, h2, if_false,
            Bool.false_eq_true] at hok ⊢
          exact absurd hok (by simp)

theorem deleteGo_protected_survive :
    ∀ (rels : List (String × List Nat)) (st : RState) (c : RChild),
      c ∈ st.children → c.blockers ≠ [] →
      c ∈ ((deleteRelationsGo rels st).1).children := by
  intro rels
  induction rels with
  | nil => intro st c hc _; exact hc
  | cons r rest ih =>
      intro st c hc hb
      obtain ⟨f, pks⟩ := r
      by_cases h1 : (st.children.filter
          (fun c => c.rel == f && !(pks.contains c.pk))).isEmpty = true
      · simp only [deleteRelationsGo, h1, if_true]
        exact ih st c hc hb
      · by_cases h2 : (((st.children.filter
            (fun c => c.rel == f && !(pks.contains c.pk))).map
              (fun c => c.blockers)).flatten).isEmpty = true
        · simp only [deleteRelationsGo, h1, h2, if_true, if_false,
            Bool.false_eq_true]
          apply ih
          · -- c survives the filter: were it doomed, its blockers would
            -- appear in the (empty) protected listing
            apply List.mem_filter.mpr
            refine ⟨hc, ?_⟩
            by_cases hdoom : (c.rel == f && !(pks.contains c.pk)) = true
            · exfalso
              have hcmem : c ∈ st.children.filter
                  (fun c => c.rel == f && !(pks.contains c.pk)) :=
                List.mem_filter.mpr ⟨hc, hdoom⟩
              have hbl : c.blockers ∈ (st.children.filter
                  (fun c => c.rel == f && !(pks.contains c.pk))).map
                    (fun c => c.blockers) := List.mem_map_of_mem _ hcmem
              obtain ⟨b, hbmem⟩ : ∃ b, b ∈ c.blockers := by
                cases hcb : c.blockers with
                | nil => exact absurd hcb hb
                | cons b bs => exact ⟨b, by simp [hcb]⟩
              have : b ∈ ((st.children.filter
                  (fun c => c.rel == f && !(pks.contains c.pk))).map
                    (fun c => c.blockers)).flatten :=
                List.mem_flatten.mpr ⟨c.blockers, hbl, hbmem⟩
              rw [List.isEmpty_iff] at h2
              rw [h2] at this
              simp at this
            · simp only [Bool.not_eq_true] at hdoom
              rw [hdoom]
              rfl
          · exact hb
        · simp only [deleteRelationsGo, h1, h2, if_false, Bool.false_eq_true]
          exact hc

theorem deleteGo_err :
    ∀ (rels : List (String × List Nat)) (st : RState) (e : NestedError),
      (deleteRelationsGo rels st).2.2 = some e →
      ∃ f pks, (f, pks) ∈ rels ∧
        e = .cannotDeleteProtected (cannotDeleteMsg (String.intercalate ", "
          (((((deleteRelationsGo rels st).1).children.filter
              (fun c => c.rel == f && !(pks.contains c.pk))).map
                (fun c => c.blockers)).flatten))) := by
  intro rels
  induction rels with
  | nil => intro st e he; simp [deleteRelationsGo] at he
  | cons r rest ih =>
      intro st e he
      obtain ⟨f, pks⟩ := r
      by_cases h1 : (st.children.filter
          (fun c => c.rel == f && !(pks.contains c.pk))).isEmpty = true
      · simp only [deleteRelationsGo, h1, if_true] at he ⊢
        obtain ⟨f', pks', hmem, hform⟩ := ih st e he
        exact ⟨f', pks', by simp [hmem], hform⟩
      · by_cases h2 : (((st.children.filter
            (fun c => c.rel == f && !(pks.contains c.pk))).map
              (fun c => c.blockers)).flatten).isEmpty = true
        · simp only [deleteRelationsGo, h1, h2, if_true, if_false,
            Bool.false_eq_true] at he ⊢
          obtain ⟨f', pks', hmem, hform⟩ := ih _ e he
          exact ⟨f', pks', by simp [hmem], hform⟩
        · simp only [deleteRelationsGo, h1, h2, if_false,
            Bool.false_eq_true] at he ⊢
          refine ⟨f, pks, by simp, ?_⟩
          injection he with he2
          exact he2.symm


theorem specPayload_pks (snap : List Child) :
    ∀ (ds : List ChildData) (next : Nat),
      (specPayload snap next ds).map (fun d => d.pk) =
        (specSavedPks snap next ds).map some := by
  intro ds
  induction ds with
  | nil => intro next; rfl
  | cons d ds ih =>
      intro next
      cases hm : specMatch snap d <;>
        simp [specPayload, specSavedPks, hm, ih]

theorem specPayloadM_pks (snap : List MChild) :
    ∀ (ds : List ChildData) (next : Nat),
      (specPayloadM snap next ds).map (fun d => d.pk) =
        (specSavedPksM snap next ds).map some := by
  intro ds
  induction ds with
  | nil => intro next; rfl
  | cons d ds ih =>
      intro next
      cases hm : specMatchM snap d <;>
        simp [specPayloadM, specSavedPksM, hm, ih]

theorem specPayload_valid (snap : List Child) :
    ∀ (ds : List ChildData) (next : Nat),
      (∀ d ∈ ds, d.valid = true) →
      ∀ d' ∈ specPayload snap next ds, d'.valid = true := by
  intro ds
  induction ds with
  | nil => intro next _ d' h; simp [specPayload] at h
  | cons d ds ih =>
      intro next hv d' h
      cases hm : specMatch snap d <;> rw [specPayload, hm] at h <;>
        rcases List.mem_cons.mp h with h | h <;>
        first
          | (subst h; exact hv d (by simp))
          | exact ih _ (fun x hx => hv x (by simp [hx])) d' h

theorem specPayload_filterMap_pks (snap : List Child)
    (hpos : ∀ c ∈ snap, 0 < c.pk) :
    ∀ (ds : List ChildData) (next : Nat), 0 < next →
      (specPayload snap next ds).filterMap (fun d => getRelatedPk d.pk) =
        specSavedPks snap next ds := by
  intro ds
  induction ds with
  | nil => intro next _; rfl
  | cons d ds ih =>
      intro next hnext
      cases hm : specMatch snap d with
      | some c =>
          have hc : 0 < c.pk := hpos c (specMatch_some hm).2
          simp only [specPayload, hm, specSavedPks, List.filterMap_cons]
          have : getRelatedPk (some c.pk) = some c.pk := by
            simp [getRelatedPk, Nat.pos_iff_ne_zero.mp hc]
          simp only [this]
          rw [ih next hnext]
      | none =>
          simp only [specPayload, hm, specSavedPks, List.filterMap_cons]
          have : getRelatedPk (some next) = some next := by
            simp [getRelatedPk, Nat.pos_iff_ne_zero.mp hnext]
          simp only [this]
          rw [ih (next + 1) (Nat.succ_pos _)]

theorem specSaved_cases2 (p : Nat) (snap : List Child) :
    ∀ (ds : List ChildData) (next k : Nat),
      k ∈ specSavedPks snap next ds →
      ((∃ d ∈ ds, getRelatedPk d.pk = some k) ∧ ∃ c ∈ snap, c.pk = k) ∨
        (∃ x ∈ specNewChildren p snap next ds, x.pk = k) := by
  intro ds
  induction ds with
  | nil => intro next k h; simp [specSavedPks] at h
  | cons d ds ih =>
      intro next k h
      cases hm : specMatch snap d with
      | some c =>
          rw [specSavedPks, hm] at h
          rcases List.mem_cons.mp h with h | h
          · subst h
            exact Or.inl ⟨⟨d, by simp, (specMatch_some hm).1⟩,
              c, (specMatch_some hm).2, rfl⟩
          · rcases ih next k h with ⟨⟨d', hd', hp⟩, hc⟩ | ⟨x, hx, hxpk⟩
            · exact Or.inl ⟨⟨d', by simp [hd'], hp⟩, hc⟩
            · exact Or.inr ⟨x, by rw [specNewChildren, hm]; exact hx, hxpk⟩
      | none =>
          rw [specSavedPks, hm] at h
          rcases List.mem_cons.mp h with h | h
          · exact Or.inr ⟨⟨next, d.attrs, some p⟩,
              by rw [specNewChildren, hm]; exact List.mem_cons_self _ _, h.symm⟩
          · rcases ih (next + 1) k h with ⟨⟨d', hd', hp⟩, hc⟩ | ⟨x, hx, hxpk⟩
            · exact Or.inl ⟨⟨d', by simp [hd'], hp⟩, hc⟩
            · exact Or.inr ⟨x,
                by rw [specNewChildren, hm]; exact List.mem_cons_of_mem _ hx,
                hxpk⟩

theorem specNew_pk_lt (p : Nat) (snap : List Child) :
    ∀ (ds : List ChildData) (next : Nat) (x : Child),
      x ∈ specNewChildren p snap next ds →
      x.pk < next + specCreatedCount snap ds := by
  intro ds
  induction ds with
  | nil => intro next x h; simp [specNewChildren] at h
  | cons d ds ih =>
      intro next x h
      cases hm : specMatch snap d with
      | some c =>
          rw [specNewChildren, hm] at h
          have h1 := ih next x h
          have h2 : specCreatedCount snap (d :: ds) =
              specCreatedCount snap ds := by
            simp [specCreatedCount, List.filter_cons, hm]
          omega
      | none =>
          rw [specNewChildren, hm] at h
          have h2 : specCreatedCount snap (d :: ds) =
              specCreatedCount snap ds + 1 := by
            simp [specCreatedCount, List.filter_cons, hm]
          rcases List.mem_cons.mp h with h | h
          · subst h
            simp only []
            omega
          · have h1 := ih (next + 1) x h
            omega

theorem specNew_pks_nodup (p : Nat) (snap : List Child) :
    ∀ (ds : List ChildData) (next : Nat),
      ((specNewChildren p snap next ds).map (fun c => c.pk)).Nodup := by
  intro ds
  induction ds with
  | nil => intro next; simp [specNewChildren]
  | cons d ds ih =>
      intro next
      cases hm : specMatch snap d with
      | some c => rw [specNewChildren, hm]; exact ih next
      | none =>
          rw [specNewChildren, hm]
          simp only [List.map_cons]
          rw [List.nodup_cons]
          refine ⟨?_, ih (next + 1)⟩
          intro hmem
          obtain ⟨x, hx, hxpk⟩ := List.mem_map.mp hmem
          have := (specNew_mem p snap ds (next + 1) x hx).2.2
          omega

theorem specSavedPks_nodup (snap : List Child) :
    ∀ (ds : List ChildData) (next : Nat),
      (ds.filterMap (fun d => getRelatedPk d.pk)).Nodup →
      (∀ c ∈ snap, c.pk < next) →
      (specSavedPks snap next ds).Nodup := by
  intro ds
  induction ds with
  | nil => intro next _ _; simp [specSavedPks]
  | cons d ds ih =>
      intro next hnd hlt
      cases hm : specMatch snap d with
      | some c =>
          obtain ⟨hgp, hcm⟩ := specMatch_some hm
          have hcons : ((d :: ds).filterMap (fun d' => getRelatedPk d'.pk)) =
              c.pk :: ds.filterMap (fun d' => getRelatedPk d'.pk) := by
            simp [List.filterMap_cons, hgp]
          rw [hcons] at hnd
          rw [specSavedPks, hm, List.nodup_cons]
          refine ⟨?_, ih next (List.nodup_cons.mp hnd).2 hlt⟩
          intro hmem
          rcases specSaved_cases2 0 snap ds next c.pk hmem with
            ⟨⟨d', hd', hp⟩, _⟩ | ⟨x, hx, hxpk⟩
          · exact (List.nodup_cons.mp hnd).1
              (List.mem_filterMap.mpr ⟨d', hd', hp⟩)
          · have h1 := (specNew_mem 0 snap ds next x hx).2.2
            have h2 := hlt c hcm
            omega
      | none =>
          have hndtail : (ds.filterMap (fun d' => getRelatedPk d'.pk)).Nodup := by
            cases hgp : getRelatedPk d.pk with
            | none =>
                have heq : ((d :: ds).filterMap (fun d' => getRelatedPk d'.pk)) =
                    ds.filterMap (fun d' => getRelatedPk d'.pk) := by
                  simp [List.filterMap_cons, hgp]
                rwa [heq] at hnd
            | some k =>
                have heq : ((d :: ds).filterMap (fun d' => getRelatedPk d'.pk)) =
                    k :: ds.filterMap (fun d' => getRelatedPk d'.pk) := by
                  simp [List.filterMap_cons, hgp]
                rw [heq] at hnd
                exact (List.nodup_cons.mp hnd).2
          rw [specSavedPks, hm, List.nodup_cons]
          refine ⟨?_, ih (next + 1) hndtail
            (fun c hc => Nat.lt_succ_of_lt (hlt c hc))⟩
          intro hmem
          rcases specSaved_cases2 0 snap ds (next + 1) next hmem with
            ⟨_, ⟨c, hcm, hcpk⟩⟩ | ⟨x, hx, hxpk⟩
          · have := hlt c hcm
            omega
          · have := (specNew_mem 0 snap ds (next + 1) x hx).2.2
            omega


theorem specKept_mem_of_matched (s : Store) (p : Nat) (ds : List ChildData)
    (c : Child) (hc : c ∈ s.children) (hpar : c.parent = some p)
    (d : ChildData) (hd : d ∈ ds) (hdp : getRelatedPk d.pk = some c.pk) :
    ∃ d₀, ds.find? (fun d' => getRelatedPk d'.pk == some c.pk) = some d₀ ∧
      (⟨c.pk, d₀.attrs, some p⟩ : Child) ∈ specKept s p ds := by
  have hsome : (ds.find? (fun d' => getRelatedPk d'.pk == some c.pk)).isSome := by
    rw [List.find?_isSome]
    exact ⟨d, hd, by simp [hdp]⟩
  obtain ⟨d₀, hd₀⟩ := Option.isSome_iff_exists.mp hsome
  refine ⟨d₀, hd₀, ?_⟩
  unfold specKept
  apply List.mem_filterMap.mpr
  refine ⟨c, hc, ?_⟩
  simp only [hpar, beq_self_eq_true, if_true, hd₀]

theorem specSaved_sub_linkedFinal (s : Store) (p : Nat) (ds : List ChildData) :
    ∀ k ∈ specSavedPks (linkedChildren s p) s.nextPk ds,
      k ∈ linkedPks (specFinalStore s p ds) p := by
  intro k hk
  rcases specSaved_cases2 p (linkedChildren s p) ds s.nextPk k hk with
    ⟨⟨d, hd, hdp⟩, ⟨c, hcm, hcpk⟩⟩ | ⟨x, hx, hxpk⟩
  · have hcchild : c ∈ s.children := (List.mem_filter.mp hcm).1
    have hcpar : c.parent = some p := by
      simpa using (List.mem_filter.mp hcm).2
    obtain ⟨d₀, _, hkept⟩ := specKept_mem_of_matched s p ds c hcchild hcpar d hd
      (by rw [hdp, hcpk])
    unfold linkedPks linkedChildren specFinalStore
    apply List.mem_map.mpr
    refine ⟨⟨c.pk, d₀.attrs, some p⟩, ?_, hcpk⟩
    apply List.mem_filter.mpr
    exact ⟨List.mem_append_left _ hkept, by simp⟩
  · obtain ⟨hxpar, _, _⟩ := specNew_mem p (linkedChildren s p) ds s.nextPk x hx
    unfold linkedPks linkedChildren specFinalStore
    apply List.mem_map.mpr
    refine ⟨x, ?_, hxpk⟩
    apply List.mem_filter.mpr
    exact ⟨List.mem_append_right _ hx, by simp [hxpar]⟩

theorem linkedFinal_sub_saved (s : Store) (p : Nat) (ds : List ChildData) :
    ∀ c ∈ linkedChildren (specFinalStore s p ds) p,
      c.pk ∈ specSavedPks (linkedChildren s p) s.nextPk ds := by
  intro c hc
  have hc' := List.mem_filter.mp hc
  have hcpar : c.parent = some p := by simpa using hc'.2
  rcases List.mem_append.mp hc'.1 with hk | hn
  · obtain ⟨x, hx, hgx⟩ := List.mem_filterMap.mp hk
    by_cases hxp : x.parent = some p
    · rw [if_pos (by simp [hxp])] at hgx
      cases hfd : ds.find? (fun d' => getRelatedPk d'.pk == some x.pk) with
      | none => rw [hfd] at hgx; simp at hgx
      | some d =>
          rw [hfd] at hgx
          have hceq : c = ⟨x.pk, d.attrs, some p⟩ := by
            simpa using hgx.symm
          have hxsnap : x ∈ linkedChildren s p :=
            List.mem_filter.mpr ⟨hx, by simp [hxp]⟩
          have hdp : getRelatedPk d.pk = some x.pk := by
            simpa using List.find?_some hfd
          have hsome : ((linkedChildren s p).find?
              (fun c' => c'.pk == x.pk)).isSome := by
            rw [List.find?_isSome]
            exact ⟨x, hxsnap, by simp⟩
          obtain ⟨c₂, hc₂⟩ := Option.isSome_iff_exists.mp hsome
          have hsmc : specMatch (linkedChildren s p) d = some c₂ := by
            unfold specMatch
            rw [hdp]
            exact hc₂
          have hc₂pk : c₂.pk = x.pk := by
            have := List.find?_some hc₂
            simpa using this
          have := specSaved_of_match (linkedChildren s p) ds s.nextPk d c₂
            (List.mem_of_find?_eq_some hfd) hsmc
          rw [hceq]
          simpa [hc₂pk] using this
    · rw [if_neg (by simp [hxp])] at hgx
      have hceq : c = x := by simpa using hgx.symm
      rw [hceq] at hcpar
      exact absurd hcpar hxp
  · exact (specNew_mem p (linkedChildren s p) ds s.nextPk c hn).2.1

theorem filterMap_pk_sublist (g : Child → Option Child)
    (hg : ∀ x y, g x = some y → y.pk = x.pk) :
    ∀ (l : List Child),
      ((l.filterMap g).map (fun c => c.pk)).Sublist (l.map (fun c => c.pk)) := by
  intro l
  induction l with
  | nil => simp
  | cons a l ih =>
      cases hga : g a with
      | none =>
          simp only [List.filterMap_cons, hga, List.map_cons]
          exact ih.cons _
      | some y =>
          simp only [List.filterMap_cons, hga, List.map_cons, hg a y hga]
          exact ih.cons₂ _

theorem specKept_pk_preserved (s : Store) (p : Nat) (ds : List ChildData) :
    ∀ x y, (fun c =>
        if c.parent == some p then
          match ds.find? (fun d => getRelatedPk d.pk == some c.pk) with
          | some d => some (⟨c.pk, d.attrs, some p⟩ : Child)
          | none => none
        else some c) x = some y → y.pk = x.pk := by
  intro x y h
  have h' : (if x.parent == some p then
      match ds.find? (fun d => getRelatedPk d.pk == some x.pk) with
      | some d => some (⟨x.pk, d.attrs, some p⟩ : Child)
      | none => none
    else some x) = some y := h
  by_cases hxp : x.parent = some p
  · rw [if_pos (by simp [hxp])] at h'
    cases hfd : ds.find? (fun d => getRelatedPk d.pk == some x.pk) with
    | none => rw [hfd] at h'; simp at h'
    | some d =>
        rw [hfd] at h'
        have hy : y = ⟨x.pk, d.attrs, some p⟩ := by simpa using h'.symm
        rw [hy]
  · rw [if_neg (by simp [hxp])] at h'
    have hy : y = x := by simpa using h'.symm
    rw [hy]

theorem specFinalStore_wf (s : Store) (p : Nat) (ds : List ChildData)
    (hwf : s.wf) : (specFinalStore s p ds).wf := by
  obtain ⟨hnodup, hnpos, hbound⟩ := hwf
  have hkept_sub := filterMap_pk_sublist _ (specKept_pk_preserved s p ds)
    s.children
  have hkept_nodup : ((specKept s p ds).map (fun c => c.pk)).Nodup :=
    hnodup.sublist hkept_sub
  have hkept_mem : ∀ c ∈ specKept s p ds, 0 < c.pk ∧ c.pk < s.nextPk := by
    intro c hc
    obtain ⟨x, hx, hgx⟩ := List.mem_filterMap.mp hc
    have := specKept_pk_preserved s p ds x c hgx
    have hb := hbound x hx
    omega
  have hnew_nodup := specNew_pks_nodup p (linkedChildren s p) ds s.nextPk
  have hnew_mem : ∀ c ∈ specNewChildren p (linkedChildren s p) s.nextPk ds,
      s.nextPk ≤ c.pk ∧
        c.pk < s.nextPk + specCreatedCount (linkedChildren s p) ds := by
    intro c hc
    exact ⟨(specNew_mem p _ ds s.nextPk c hc).2.2,
      specNew_pk_lt p _ ds s.nextPk c hc⟩
  refine ⟨?_, ?_, ?_⟩
  · show ((specKept s p ds ++
        specNewChildren p (linkedChildren s p) s.nextPk ds).map
          (fun c => c.pk)).Nodup
    rw [List.map_append]
    apply List.Nodup.append hkept_nodup hnew_nodup
    intro k hk1 hk2
    obtain ⟨c1, hc1, hk1'⟩ := List.mem_map.mp hk1
    obtain ⟨c2, hc2, hk2'⟩ := List.mem_map.mp hk2
    have h1 := (hkept_mem c1 hc1).2
    have h2 := (hnew_mem c2 hc2).1
    omega
  · show 0 < s.nextPk + specCreatedCount (linkedChildren s p) ds
    omega
  · intro c hc
    have hc2 : c ∈ specKept s p ds ++
        specNewChildren p (linkedChildren s p) s.nextPk ds := hc
    show 0 < c.pk ∧
      c.pk < s.nextPk + specCreatedCount (linkedChildren s p) ds
    rcases List.mem_append.mp hc2 with h | h
    · have := hkept_mem c h
      omega
    · have h1 := (hnew_mem c h).1
      have h2 := (hnew_mem c h).2
      omega

theorem filterMap_map_of_preserving {β : Type} (g : Child → Option Child)
    (h : Child → β) :
    ∀ (l : List Child),
      (∀ x ∈ l, ∃ y, g x = some y ∧ h y = h x) →
      (l.filterMap g).map h = l.map h := by
  intro l
  induction l with
  | nil => intro _; rfl
  | cons a l ih =>
      intro hp
      obtain ⟨y, hya, hyh⟩ := hp a (by simp)
      simp only [List.filterMap_cons, hya, List.map_cons, hyh]
      rw [ih (fun x hx => hp x (by simp [hx]))]


theorem payload_pk_saved (snap : List Child) (ds : List ChildData)
    (next : Nat) :
    ∀ d' ∈ specPayload snap next ds,
      ∃ k, d'.pk = some k ∧ k ∈ specSavedPks snap next ds := by
  intro d' h
  have hmap := specPayload_pks snap ds next
  have hmem : d'.pk ∈ (specPayload snap next ds).map (fun d => d.pk) :=
    List.mem_map_of_mem _ h
  rw [hmap] at hmem
  obtain ⟨k, hk, hkeq⟩ := List.mem_map.mp hmem
  exact ⟨k, hkeq.symm, hk⟩

theorem payloadM_pk_saved (snap : List MChild) (ds : List ChildData)
    (next : Nat) :
    ∀ d' ∈ specPayloadM snap next ds,
      ∃ k, d'.pk = some k ∧ k ∈ specSavedPksM snap next ds := by
  intro d' h
  have hmap := specPayloadM_pks snap ds next
  have hmem : d'.pk ∈ (specPayloadM snap next ds).map (fun d => d.pk) :=
    List.mem_map_of_mem _ h
  rw [hmap] at hmem
  obtain ⟨k, hk, hkeq⟩ := List.mem_map.mp hmem
  exact ⟨k, hkeq.symm, hk⟩

theorem mem_payload_of_saved (snap : List Child) (ds : List ChildData)
    (next : Nat) :
    ∀ k ∈ specSavedPks snap next ds,
      ∃ d' ∈ specPayload snap next ds, d'.pk = some k := by
  intro k h
  have hmap := specPayload_pks snap ds next
  have hmem : some k ∈ (specSavedPks snap next ds).map some :=
    List.mem_map_of_mem _ h
  rw [← hmap] at hmem
  obtain ⟨d', hd', hdeq⟩ := List.mem_map.mp hmem
  exact ⟨d', hd', hdeq⟩

theorem specNew_nil (p : Nat) (snap : List Child) :
    ∀ (ds : List ChildData) (next : Nat),
      (∀ d ∈ ds, (specMatch snap d).isSome = true) →
      specNewChildren p snap next ds = [] ∧ specCreatedCount snap ds = 0 := by
  intro ds
  induction ds with
  | nil => intro next _; exact ⟨rfl, rfl⟩
  | cons d ds ih =>
      intro next hall
      cases hm : specMatch snap d with
      | none =>
          have := hall d (by simp)
          rw [hm] at this
          simp at this
      | some c =>
          obtain ⟨h1, h2⟩ := ih next (fun x hx => hall x (by simp [hx]))
          refine ⟨?_, ?_⟩
          · rw [specNewChildren, hm]; exact h1
          · simp only [specCreatedCount, List.filter_cons, hm] at h2 ⊢
            simpa using h2

theorem secondReverse_identity (f : String) (s : Store) (p : Nat)
    (ds : List ChildData) (hwf : s.wf) (hv : ∀ d ∈ ds, d.valid = true)
    (hnd : (ds.filterMap (fun d => getRelatedPk d.pk)).Nodup) :
    (nestedUpdateReverseO2M f (specFinalStore s p ds) p
        (specPayload (linkedChildren s p) s.nextPk ds)).2.2 = none ∧
    (nestedUpdateReverseO2M f (specFinalStore s p ds) p
        (specPayload (linkedChildren s p) s.nextPk ds)).1.children.map
          (fun c => (c.pk, c.parent)) =
      (specFinalStore s p ds).children.map (fun c => (c.pk, c.parent)) ∧
    (nestedUpdateReverseO2M f (specFinalStore s p ds) p
        (specPayload (linkedChildren s p) s.nextPk ds)).1.nextPk =
      (specFinalStore s p ds).nextPk := by
  obtain ⟨hnodup, hnpos, hbound⟩ := hwf
  have hsnappos : ∀ c ∈ linkedChildren s p, 0 < c.pk := fun c hc =>
    (hbound c (List.mem_filter.mp hc).1).1
  have hsnaplt : ∀ c ∈ linkedChildren s p, c.pk < s.nextPk := fun c hc =>
    (hbound c (List.mem_filter.mp hc).1).2
  have hwf1 : (specFinalStore s p ds).wf :=
    specFinalStore_wf s p ds ⟨hnodup, hnpos, hbound⟩
  have hv1 := specPayload_valid (linkedChildren s p) ds s.nextPk hv
  have hnd1 : ((specPayload (linkedChildren s p) s.nextPk ds).filterMap
      (fun d => getRelatedPk d.pk)).Nodup := by
    rw [specPayload_filterMap_pks (linkedChildren s p) hsnappos ds s.nextPk
      hnpos]
    exact specSavedPks_nodup (linkedChildren s p) ds s.nextPk hnd hsnaplt
  have hspec := nestedUpdateReverseO2M_spec f (specFinalStore s p ds) p
    (specPayload (linkedChildren s p) s.nextPk ds) hwf1 hv1 hnd1
  have hallmatched : ∀ d' ∈ specPayload (linkedChildren s p) s.nextPk ds,
      (specMatch (linkedChildren (specFinalStore s p ds) p) d').isSome =
        true := by
    intro d' hd'
    obtain ⟨k, hpk, hksaved⟩ :=
      payload_pk_saved (linkedChildren s p) ds s.nextPk d' hd'
    have hklinked := specSaved_sub_linkedFinal s p ds k hksaved
    obtain ⟨c, hc, hcpk⟩ := List.mem_map.mp hklinked
    have hkpos : 0 < k := by
      have := (hwf1.2.2 c (List.mem_filter.mp hc).1).1
      omega
    unfold specMatch
    rw [hpk]
    have hgp : getRelatedPk (some k) = some k := by
      simp [getRelatedPk, Nat.pos_iff_ne_zero.mp hkpos]
    rw [hgp]
    have : ((linkedChildren (specFinalStore s p ds) p).find?
        (fun c' => c'.pk == k)).isSome := by
      rw [List.find?_isSome]
      exact ⟨c, hc, by simp [hcpk]⟩
    exact this
  obtain ⟨hnil, hcount⟩ := specNew_nil p
    (linkedChildren (specFinalStore s p ds) p)
    (specPayload (linkedChildren s p) s.nextPk ds)
    (specFinalStore s p ds).nextPk hallmatched
  have hkeptmap : (specKept (specFinalStore s p ds) p
      (specPayload (linkedChildren s p) s.nextPk ds)).map
        (fun c => (c.pk, c.parent)) =
      (specFinalStore s p ds).children.map (fun c => (c.pk, c.parent)) := by
    apply filterMap_map_of_preserving
    intro x hx
    by_cases hxp : x.parent = some p
    · have hxlinked : x ∈ linkedChildren (specFinalStore s p ds) p :=
        List.mem_filter.mpr ⟨hx, by simp [hxp]⟩
      have hxsaved := linkedFinal_sub_saved s p ds x hxlinked
      obtain ⟨d', hd', hd'pk⟩ :=
        mem_payload_of_saved (linkedChildren s p) ds s.nextPk x.pk hxsaved
      have hxpos : 0 < x.pk := (hwf1.2.2 x hx).1
      have hsome : ((specPayload (linkedChildren s p) s.nextPk ds).find?
          (fun d => getRelatedPk d.pk == some x.pk)).isSome := by
        rw [List.find?_isSome]
        refine ⟨d', hd', ?_⟩
        rw [hd'pk]
        simp [getRelatedPk, Nat.pos_iff_ne_zero.mp hxpos]
      obtain ⟨d₀, hd₀⟩ := Option.isSome_iff_exists.mp hsome
      refine ⟨⟨x.pk, d₀.attrs, some p⟩, ?_, by simp [hxp]⟩
      rw [if_pos (by simp [hxp]), hd₀]
    · exact ⟨x, by rw [if_neg (by simp [hxp])], rfl⟩
  rw [hspec]
  refine ⟨rfl, ?_, ?_⟩
  · show (specKept (specFinalStore s p ds) p
        (specPayload (linkedChildren s p) s.nextPk ds) ++
        specNewChildren p (linkedChildren (specFinalStore s p ds) p)
          (specFinalStore s p ds).nextPk
          (specPayload (linkedChildren s p) s.nextPk ds)).map
            (fun c => (c.pk, c.parent)) =
      (specFinalStore s p ds).children.map (fun c => (c.pk, c.parent))
    rw [hnil, List.append_nil, hkeptmap]
  · show (specFinalStore s p ds).nextPk +
        specCreatedCount (linkedChildren (specFinalStore s p ds) p)
          (specPayload (linkedChildren s p) s.nextPk ds) =
      (specFinalStore s p ds).nextPk
    rw [hcount]
    omega


theorem map_upd_dent_pk (ents : List DEnt) (j a : Nat) :
    ((ents.map (fun x => if x.pk == j then (⟨j, a⟩ : DEnt) else x)).map
      (fun e => e.pk)) = ents.map (fun e => e.pk) := by
  rw [List.map_map]
  apply List.map_congr_left
  intro x _
  by_cases hx : x.pk = j
  · simp [hx]
  · simp [hx]

theorem direct_m2o_matched (f : String) (s : DStore) (k : Nat) (d : DData)
    (hdv : d.valid = true) (hdk : d.pk = some k) (hk0 : k ≠ 0)
    (e : DEnt) (hfind : s.ents.find? (fun x => x.pk == k) = some e) :
    update_or_create_direct_m2o f s (some k) d =
      (⟨s.ents.map (fun x => if x.pk == e.pk then ⟨e.pk, d.attrs⟩ else x),
          s.nextPk⟩, some k, none) := by
  have hepk : e.pk = k := by simpa using List.find?_some hfind
  simp only [update_or_create_direct_m2o, hdk]
  simp [hfind, getRelatedPk, hk0, pkMismatch, hepk, hdv]

theorem fullReverse_first (st : FStore) (dopt : Option DData)
    (ds : List ChildData)
    (hwfC : (⟨st.children, st.nextC⟩ : Store).wf)
    (hv : ∀ d ∈ ds, d.valid = true)
    (hnd : (ds.filterMap (fun d => getRelatedPk d.pk)).Nodup) :
    nestedUpdateFullReverse st ⟨dopt, some ds⟩ =
      ⟨⟨st.root, st.dents,
          (specFinalStore ⟨st.children, st.nextC⟩ st.root.pk ds).children,
          st.nextD,
          (specFinalStore ⟨st.children, st.nextC⟩ st.root.pk ds).nextPk⟩,
        ⟨dopt, some (specPayload
          (linkedChildren ⟨st.children, st.nextC⟩ st.root.pk) st.nextC ds)⟩,
        none⟩ := by
  simp only [nestedUpdateFullReverse]
  rw [nestedUpdateReverseO2M_spec "ch" ⟨st.children, st.nextC⟩ st.root.pk ds
    hwfC hv hnd]


theorem fullReverse_none (st : FStore) (dopt : Option DData) :
    nestedUpdateFullReverse st ⟨dopt, none⟩ = ⟨st, ⟨dopt, none⟩, none⟩ := by
  simp only [nestedUpdateFullReverse]

theorem fullReverse_second (st : FStore) (dopt : Option DData)
    (s : Store) (p : Nat) (ds : List ChildData)
    (hch : st.children = (specFinalStore s p ds).children)
    (hnc : st.nextC = (specFinalStore s p ds).nextPk)
    (hp : st.root.pk = p)
    (hwf : s.wf) (hv : ∀ d ∈ ds, d.valid = true)
    (hnd : (ds.filterMap (fun d => getRelatedPk d.pk)).Nodup) :
    (nestedUpdateFullReverse st
        ⟨dopt, some (specPayload (linkedChildren s p) s.nextPk ds)⟩).err =
      none ∧
    (nestedUpdateFullReverse st
        ⟨dopt, some (specPayload (linkedChildren s p) s.nextPk ds)⟩).store.children.map
          (fun c => (c.pk, c.parent)) =
      st.children.map (fun c => (c.pk, c.parent)) ∧
    (nestedUpdateFullReverse st
        ⟨dopt, some (specPayload (linkedChildren s p) s.nextPk ds)⟩).store.nextC =
      st.nextC ∧
    (nestedUpdateFullReverse st
        ⟨dopt, some (specPayload (linkedChildren s p) s.nextPk ds)⟩).store.root =
      st.root ∧
    (nestedUpdateFullReverse st
        ⟨dopt, some (specPayload (linkedChildren s p) s.nextPk ds)⟩).store.dents =
      st.dents ∧
    (nestedUpdateFullReverse st
        ⟨dopt, some (specPayload (linkedChildren s p) s.nextPk ds)⟩).store.nextD =
      st.nextD := by
  have hstore : (⟨st.children, st.nextC⟩ : Store) = specFinalStore s p ds := by
    rw [hch, hnc]
  obtain ⟨hid1, hid2, hid3⟩ := secondReverse_identity "ch" s p ds hwf hv hnd
  simp only [nestedUpdateFullReverse, hp, hstore]
  refine ⟨?_, ?_, ?_, ?_, ?_, ?_⟩ <;>
    first
      | exact hid1
      | exact hid3.trans hnc.symm
      | (rw [hid2, hch])
      | trivial

theorem nestedUpdateFull_second_noop (s : FStore) (pl : FPayload)
    (hwfD : (⟨s.dents, s.nextD⟩ : DStore).wf)
    (hwfC : (⟨s.children, s.nextC⟩ : Store).wf)
    (hrev : ∀ ds, pl.reverse = some ds → (∀ d ∈ ds, d.valid = true) ∧
      (ds.filterMap (fun d => getRelatedPk d.pk)).Nodup)
    (hdir : ∀ dd, pl.direct = some dd → dd.valid = true ∧
      ∃ k, dd.pk = some k ∧ s.root.fk = some k ∧
        k ∈ s.dents.map (fun e => e.pk)) :
    (nestedUpdateFull s pl).err = none ∧
    (nestedUpdateFull (nestedUpdateFull s pl).store
        (nestedUpdateFull s pl).payload).err = none ∧
    (nestedUpdateFull (nestedUpdateFull s pl).store
        (nestedUpdateFull s pl).payload).store.children.map
          (fun c => (c.pk, c.parent)) =
      (nestedUpdateFull s pl).store.children.map (fun c => (c.pk, c.parent)) ∧
    (nestedUpdateFull (nestedUpdateFull s pl).store
        (nestedUpdateFull s pl).payload).store.dents.map (fun e => e.pk) =
      (nestedUpdateFull s pl).store.dents.map (fun e => e.pk) ∧
    (nestedUpdateFull (nestedUpdateFull s pl).store
        (nestedUpdateFull s pl).payload).store.root =
      (nestedUpdateFull s pl).store.root ∧
    (nestedUpdateFull (nestedUpdateFull s pl).store
        (nestedUpdateFull s pl).payload).store.nextC =
      (nestedUpdateFull s pl).store.nextC ∧
    (nestedUpdateFull (nestedUpdateFull s pl).store
        (nestedUpdateFull s pl).payload).store.nextD =
      (nestedUpdateFull s pl).store.nextD := by
  obtain ⟨plD, plR⟩ := pl
  cases hd : plD with
  | none =>
      subst hd
      cases hr : plR with
      | none =>
          subst hr
          simp [nestedUpdateFull, fullReverse_none]
      | some ds =>
          subst hr
          obtain ⟨hv, hnd⟩ := hrev ds rfl
          have h1 : nestedUpdateFull s ⟨none, some ds⟩ =
              nestedUpdateFullReverse s ⟨none, some ds⟩ := by
            simp only [nestedUpdateFull]
          rw [h1, fullReverse_first s none ds hwfC hv hnd]
          have h2 : nestedUpdateFull
              (⟨s.root, s.dents,
                (specFinalStore ⟨s.children, s.nextC⟩ s.root.pk ds).children,
                s.nextD,
                (specFinalStore ⟨s.children, s.nextC⟩ s.root.pk ds).nextPk⟩ :
                  FStore)
              ⟨none, some (specPayload
                (linkedChildren ⟨s.children, s.nextC⟩ s.root.pk) s.nextC ds)⟩ =
              nestedUpdateFullReverse
              (⟨s.root, s.dents,
                (specFinalStore ⟨s.children, s.nextC⟩ s.root.pk ds).children,
                s.nextD,
                (specFinalStore ⟨s.children, s.nextC⟩ s.root.pk ds).nextPk⟩ :
                  FStore)
              ⟨none, some (specPayload
                (linkedChildren ⟨s.children, s.nextC⟩ s.root.pk) s.nextC ds)⟩ := by
            simp only [nestedUpdateFull]
          rw [h2]
          have := fullReverse_second
            (⟨s.root, s.dents,
              (specFinalStore ⟨s.children, s.nextC⟩ s.root.pk ds).children,
              s.nextD,
              (specFinalStore ⟨s.children, s.nextC⟩ s.root.pk ds).nextPk⟩ :
                FStore)
            none (⟨s.children, s.nextC⟩ : Store) s.root.pk ds rfl rfl rfl
            hwfC hv hnd
          exact ⟨rfl, this.1, this.2.1, by rw [this.2.2.2.2.1],
            this.2.2.2.1, this.2.2.1, this.2.2.2.2.2⟩
  | some dd =>
      subst hd
      obtain ⟨hdv, k, hdk, hfk, hkmem⟩ := hdir dd rfl
      obtain ⟨e, hemem, hepk⟩ := List.mem_map.mp hkmem
      have hk0 : k ≠ 0 := by
        have := (hwfD.2.2 e hemem).1
        omega
      have hfindSome : (s.dents.find? (fun x => x.pk == k)).isSome := by
        rw [List.find?_isSome]
        exact ⟨e, hemem, by simp [hepk]⟩
      obtain ⟨e', hfind⟩ := Option.isSome_iff_exists.mp hfindSome
      have hd1 := direct_m2o_matched "d" ⟨s.dents, s.nextD⟩ k dd hdv hdk hk0
        e' hfind
      have hds1 : nestedUpdateFull s ⟨some dd, plR⟩ =
          nestedUpdateFullReverse
            (⟨⟨s.root.pk, some k⟩,
              s.dents.map (fun x =>
                if x.pk == e'.pk then ⟨e'.pk, dd.attrs⟩ else x),
              s.children, s.nextD, s.nextC⟩ : FStore)
            ⟨some dd, plR⟩ := by
        simp only [nestedUpdateFull, hfk, hd1]
      have hpks1 : (s.dents.map (fun x =>
          if x.pk == e'.pk then (⟨e'.pk, dd.attrs⟩ : DEnt) else x)).map
            (fun e => e.pk) = s.dents.map (fun e => e.pk) :=
        map_upd_dent_pk s.dents e'.pk dd.attrs
      have hkmem1 : k ∈ (s.dents.map (fun x =>
          if x.pk == e'.pk then (⟨e'.pk, dd.attrs⟩ : DEnt) else x)).map
            (fun e => e.pk) := by
        rw [hpks1]
        exact hkmem
      have hfind2Some : ((s.dents.map (fun x =>
          if x.pk == e'.pk then (⟨e'.pk, dd.attrs⟩ : DEnt) else x)).find?
            (fun x => x.pk == k)).isSome := by
        rw [List.find?_isSome]
        obtain ⟨e2, he2, he2pk⟩ := List.mem_map.mp hkmem1
        exact ⟨e2, he2, by simp [he2pk]⟩
      obtain ⟨e2, hfind2⟩ := Option.isSome_iff_exists.mp hfind2Some
      cases hr : plR with
      | none =>
          subst hr
          rw [hds1, fullReverse_none]
          have hd2 := direct_m2o_matched "d"
            ⟨s.dents.map (fun x =>
                if x.pk == e'.pk then ⟨e'.pk, dd.attrs⟩ else x), s.nextD⟩
            k dd hdv hdk hk0 e2 hfind2
          have hds2 : nestedUpdateFull
              (⟨⟨s.root.pk, some k⟩,
                s.dents.map (fun x =>
                  if x.pk == e'.pk then ⟨e'.pk, dd.attrs⟩ else x),
                s.children, s.nextD, s.nextC⟩ : FStore)
              ⟨some dd, none⟩ =
              nestedUpdateFullReverse
              (⟨⟨s.root.pk, some k⟩,
                (s.dents.map (fun x =>
                  if x.pk == e'.pk then ⟨e'.pk, dd.attrs⟩ else x)).map
                  (fun x => if x.pk == e2.pk then ⟨e2.pk, dd.attrs⟩ else x),
                s.children, s.nextD, s.nextC⟩ : FStore)
              ⟨some dd, none⟩ := by
            simp only [nestedUpdateFull, hd2]
          rw [hds2, fullReverse_none]
          refine ⟨rfl, rfl, rfl, ?_, rfl, rfl, rfl⟩
          show ((s.dents.map (fun x =>
              if x.pk == e'.pk then ⟨e'.pk, dd.attrs⟩ else x)).map
              (fun x => if x.pk == e2.pk then ⟨e2.pk, dd.attrs⟩ else x)).map
                (fun e => e.pk) =
            (s.dents.map (fun x =>
              if x.pk == e'.pk then ⟨e'.pk, dd.attrs⟩ else x)).map
                (fun e => e.pk)
          exact map_upd_dent_pk _ e2.pk dd.attrs
      | some ds =>
          subst hr
          obtain ⟨hv, hnd⟩ := hrev ds rfl
          rw [hds1, fullReverse_first
            (⟨⟨s.root.pk, some k⟩,
              s.dents.map (fun x =>
                if x.pk == e'.pk then ⟨e'.pk, dd.attrs⟩ else x),
              s.children, s.nextD, s.nextC⟩ : FStore) (some dd) ds hwfC hv hnd]
          have hd2 := direct_m2o_matched "d"
            ⟨s.dents.map (fun x =>
                if x.pk == e'.pk then ⟨e'.pk, dd.attrs⟩ else x), s.nextD⟩
            k dd hdv hdk hk0 e2 hfind2
          have hds2 : nestedUpdateFull
              (⟨⟨s.root.pk, some k⟩,
                s.dents.map (fun x =>
                  if x.pk == e'.pk then ⟨e'.pk, dd.attrs⟩ else x),
                (specFinalStore ⟨s.children, s.nextC⟩ s.root.pk ds).children,
                s.nextD,
                (specFinalStore ⟨s.children, s.nextC⟩ s.root.pk ds).nextPk⟩ :
                  FStore)
              ⟨some dd, some (specPayload
                (linkedChildren ⟨s.children, s.nextC⟩ s.root.pk) s.nextC ds)⟩ =
              nestedUpdateFullReverse
              (⟨⟨s.root.pk, some k⟩,
                (s.dents.map (fun x =>
                  if x.pk == e'.pk then ⟨e'.pk, dd.attrs⟩ else x)).map
                  (fun x => if x.pk == e2.pk then ⟨e2.pk, dd.attrs⟩ else x),
                (specFinalStore ⟨s.children, s.nextC⟩ s.root.pk ds).children,
                s.nextD,
                (specFinalStore ⟨s.children, s.nextC⟩ s.root.pk ds).nextPk⟩ :
                  FStore)
              ⟨some dd, some (specPayload
                (linkedChildren ⟨s.children, s.nextC⟩ s.root.pk) s.nextC ds)⟩ := by
            simp only [nestedUpdateFull, hd2]
          rw [hds2]
          have hsec := fullReverse_second
            (⟨⟨s.root.pk, some k⟩,
              (s.dents.map (fun x =>
                if x.pk == e'.pk then ⟨e'.pk, dd.attrs⟩ else x)).map
                (fun x => if x.pk == e2.pk then ⟨e2.pk, dd.attrs⟩ else x),
              (specFinalStore ⟨s.children, s.nextC⟩ s.root.pk ds).children,
              s.nextD,
              (specFinalStore ⟨s.children, s.nextC⟩ s.root.pk ds).nextPk⟩ :
                FStore)
            (some dd) (⟨s.children, s.nextC⟩ : Store) s.root.pk ds rfl rfl rfl
            hwfC hv hnd
          refine ⟨rfl, hsec.1, hsec.2.1, ?_, hsec.2.2.2.1, hsec.2.2.1,
            hsec.2.2.2.2.2⟩
          rw [hsec.2.2.2.2.1]
          show ((s.dents.map (fun x =>
              if x.pk == e'.pk then ⟨e'.pk, dd.attrs⟩ else x)).map
              (fun x => if x.pk == e2.pk then ⟨e2.pk, dd.attrs⟩ else x)).map
                (fun e => e.pk) =
            (s.dents.map (fun x =>
              if x.pk == e'.pk then ⟨e'.pk, dd.attrs⟩ else x)).map
                (fun e => e.pk)
          exact map_upd_dent_pk _ e2.pk dd.attrs


theorem get_fields_stripped :
    ∀ (flds : List UField), ∀ g ∈ (get_fields flds).1,
      ∀ vl ∈ g.validators, vl ≠ FValidator.uniqueV := by
  intro flds
  induction flds with
  | nil => intro g hg; simp [get_fields] at hg
  | cons f rest ih =>
      intro g hg vl hvl
      by_cases hu : (f.validators.any (fun v => v == FValidator.uniqueV)) = true
      · rw [get_fields] at hg
        rw [if_pos hu] at hg
        rcases List.mem_cons.mp hg with h | h
        · subst h
          simp only [] at hvl
          have := (List.mem_filter.mp hvl).2
          intro he
          rw [he] at this
          simp at this
        · exact ih g h vl hvl
      · rw [get_fields] at hg
        rw [if_neg hu] at hg
        rcases List.mem_cons.mp hg with h | h
        · have hfalse : (g.validators.any
              (fun v => v == FValidator.uniqueV)) = false := by
            rw [h]
            cases hb : (f.validators.any (fun v => v == FValidator.uniqueV)) with
            | true => exact absurd hb hu
            | false => rfl
          have hall := List.any_eq_false.mp hfalse
          have := hall vl hvl
          intro he
          rw [he] at this
          simp at this
        · exact ih g h vl hvl

theorem extract_relations_resolved (meta : ModelMeta) :
    ∀ (fields : List SField) (validated : List (String × PVal)) (n : String),
      (n ∈ (extract_relations meta fields validated).2.1 ∨
        n ∈ (extract_relations meta fields validated).2.2) →
      ∃ f ∈ fields, f.name = n ∧ f.readOnly = false ∧
        (get_related_field meta f.source).isSome = true := by
  intro fields
  induction fields with
  | nil =>
      intro validated n h
      simp [extract_relations] at h
  | cons f rest ih =>
      intro validated n h
      rw [extract_relations] at h
      split at h
      · obtain ⟨f', hf', hr⟩ := ih _ n h
        exact ⟨f', by simp [hf'], hr⟩
      · rename_i hro
        split at h
        · obtain ⟨f', hf', hr⟩ := ih _ n h
          exact ⟨f', by simp [hf'], hr⟩
        · rename_i fd hgr
          have hro' : f.readOnly = false := by
            cases hb : f.readOnly with
            | true => exact absurd hb hro
            | false => rfl
          have hsome : (get_related_field meta f.source).isSome = true := by
            rw [hgr]; rfl
          split at h
          · -- listNested
            split at h
            · obtain ⟨f', hf', hr⟩ := ih _ n h
              exact ⟨f', by simp [hf'], hr⟩
            · rcases h with h | h
              · obtain ⟨f', hf', hr⟩ := ih _ n (Or.inl h)
                exact ⟨f', by simp [hf'], hr⟩
              · rcases List.mem_cons.mp h with h | h
                · exact ⟨f, by simp, h.symm, hro', hsome⟩
                · obtain ⟨f', hf', hr⟩ := ih _ n (Or.inr h)
                  exact ⟨f', by simp [hf'], hr⟩
          · -- nested
            split at h
            · obtain ⟨f', hf', hr⟩ := ih _ n h
              exact ⟨f', by simp [hf'], hr⟩
            · split at h
              · obtain ⟨f', hf', hr⟩ := ih _ n h
                exact ⟨f', by simp [hf'], hr⟩
              · split at h
                · rcases h with h | h
                  · rcases List.mem_cons.mp h with h | h
                    · exact ⟨f, by simp, h.symm, hro', hsome⟩
                    · obtain ⟨f', hf', hr⟩ := ih _ n (Or.inl h)
                      exact ⟨f', by simp [hf'], hr⟩
                  · obtain ⟨f', hf', hr⟩ := ih _ n (Or.inr h)
                    exact ⟨f', by simp [hf'], hr⟩
                · rcases h with h | h
                  · obtain ⟨f', hf', hr⟩ := ih _ n (Or.inl h)
                    exact ⟨f', by simp [hf'], hr⟩
                  · rcases List.mem_cons.mp h with h | h
                    · exact ⟨f, by simp, h.symm, hro', hsome⟩
                    · obtain ⟨f', hf', hr⟩ := ih _ n (Or.inr h)
                      exact ⟨f', by simp [hf'], hr⟩
          · -- plainF
            obtain ⟨f', hf', hr⟩ := ih _ n h
            exact ⟨f', by simp [hf'], hr⟩


/-! ## Claim theorems -/

/-- **C1** — For every payload in which every nested child passes validation
(and whose submitted keys are pairwise distinct), a save call makes the
stored state of the root entity exactly match the submitted tree: each
submitted child whose primary key matches an existing linked child is
updated in place (same primary key), each submitted child without a
matching key is created with a new primary key, and each previously-linked
child absent from the payload is deleted (one-to-many) or detached but not
deleted (many-to-many).  The engine's sequential pipeline
(`update_or_create_reverse_relations` followed by
`delete_reverse_relations_if_need`) equals the spec-level description
`specFinalStore` / `specFinalMStore` of exactly that reconciled state. -/
theorem claim_C1 (f g : String) (s : Store) (p : Nat) (ds : List ChildData)
    (m : MStore) (dsm : List ChildData)
    (hwf : s.wf) (hv : ∀ d ∈ ds, d.valid = true)
    (hnd : (ds.filterMap (fun d => getRelatedPk d.pk)).Nodup)
    (hwfm : m.wf) (hvm : ∀ d ∈ dsm, d.valid = true)
    (hndm : (dsm.filterMap (fun d => getRelatedPk d.pk)).Nodup) :
    nestedUpdateReverseO2M f s p ds =
      (specFinalStore s p ds, specPayload (linkedChildren s p) s.nextPk ds,
        none) ∧
    nestedUpdateReverseM2M g m dsm =
      (specFinalMStore m dsm, specPayloadM (massocChildren m) m.nextPk dsm,
        none) :=
  ⟨nestedUpdateReverseO2M_spec f s p ds hwf hv hnd,
    nestedUpdateReverseM2M_spec g m dsm hwfm hvm hndm⟩

theorem claim_C1_witness :
    ((⟨[⟨1, 10, some 1⟩, ⟨2, 20, some 1⟩, ⟨3, 30, some 9⟩], 4⟩ : Store).wf ∧
      (∀ d ∈ ([⟨some 2, 21, true, 0, true⟩, ⟨none, 40, true, 0, false⟩,
          ⟨some 7, 50, true, 0, true⟩] : List ChildData), d.valid = true) ∧
      (([⟨some 2, 21, true, 0, true⟩, ⟨none, 40, true, 0, false⟩,
          ⟨some 7, 50, true, 0, true⟩] : List ChildData).filterMap
        (fun d => getRelatedPk d.pk)).Nodup ∧
      (⟨[⟨1, 10⟩, ⟨2, 20⟩, ⟨3, 30⟩], [1, 2], 4⟩ : MStore).wf ∧
      (∀ d ∈ ([⟨some 2, 21, true, 0, true⟩, ⟨none, 40, true, 0, false⟩,
          ⟨some 3, 50, true, 0, true⟩] : List ChildData), d.valid = true) ∧
      (([⟨some 2, 21, true, 0, true⟩, ⟨none, 40, true, 0, false⟩,
          ⟨some 3, 50, true, 0, true⟩] : List ChildData).filterMap
        (fun d => getRelatedPk d.pk)).Nodup) ∧
    (nestedUpdateReverseO2M "children"
        ⟨[⟨1, 10, some 1⟩, ⟨2, 20, some 1⟩, ⟨3, 30, some 9⟩], 4⟩ 1
        [⟨some 2, 21, true, 0, true⟩, ⟨none, 40, true, 0, false⟩,
          ⟨some 7, 50, true, 0, true⟩] =
      (specFinalStore ⟨[⟨1, 10, some 1⟩, ⟨2, 20, some 1⟩, ⟨3, 30, some 9⟩], 4⟩
          1 [⟨some 2, 21, true, 0, true⟩, ⟨none, 40, true, 0, false⟩,
            ⟨some 7, 50, true, 0, true⟩],
        specPayload (linkedChildren
            ⟨[⟨1, 10, some 1⟩, ⟨2, 20, some 1⟩, ⟨3, 30, some 9⟩], 4⟩ 1) 4
          [⟨some 2, 21, true, 0, true⟩, ⟨none, 40, true, 0, false⟩,
            ⟨some 7, 50, true, 0, true⟩], none) ∧
      nestedUpdateReverseM2M "tags" ⟨[⟨1, 10⟩, ⟨2, 20⟩, ⟨3, 30⟩], [1, 2], 4⟩
        [⟨some 2, 21, true, 0, true⟩, ⟨none, 40, true, 0, false⟩,
          ⟨some 3, 50, true, 0, true⟩] =
      (specFinalMStore ⟨[⟨1, 10⟩, ⟨2, 20⟩, ⟨3, 30⟩], [1, 2], 4⟩
          [⟨some 2, 21, true, 0, true⟩, ⟨none, 40, true, 0, false⟩,
            ⟨some 3, 50, true, 0, true⟩],
        specPayloadM (massocChildren ⟨[⟨1, 10⟩, ⟨2, 20⟩, ⟨3, 30⟩], [1, 2], 4⟩) 4
          [⟨some 2, 21, true, 0, true⟩, ⟨none, 40, true, 0, false⟩,
            ⟨some 3, 50, true, 0, true⟩], none)) :=
  ⟨by decide,
    claim_C1 "children" "tags"
      ⟨[⟨1, 10, some 1⟩, ⟨2, 20, some 1⟩, ⟨3, 30, some 9⟩], 4⟩ 1
      [⟨some 2, 21, true, 0, true⟩, ⟨none, 40, true, 0, false⟩,
        ⟨some 7, 50, true, 0, true⟩]
      ⟨[⟨1, 10⟩, ⟨2, 20⟩, ⟨3, 30⟩], [1, 2], 4⟩
      [⟨some 2, 21, true, 0, true⟩, ⟨none, 40, true, 0, false⟩,
        ⟨some 3, 50, true, 0, true⟩]
      (by decide) (by decide) (by decide) (by decide) (by decide) (by decide)⟩

/-- **C3** — For a reverse one-to-one relation whose submitted mapping
omits the primary key while a child `c` is already linked to the parent,
the save injects the linked child's key into the mapping and updates that
child in place: the resulting store is the original store with `c`
rewritten to the submitted attributes (same key, same parent), the
returned mapping carries `c`'s key, no error is raised, and no second
child is created (the key column and the auto-increment counter are
unchanged). -/
theorem claim_C3 (f : String) (s : Store) (p : Nat) (c : Child)
    (d : ChildData) (hwf : s.wf) (hlinked : linkedChildren s p = [c])
    (hdpk : d.pk = none) (hdv : d.valid = true) :
    update_or_create_reverse_o2o f s p d =
      (⟨s.children.map
          (fun x => if x.pk == c.pk then ⟨c.pk, d.attrs, some p⟩ else x),
        s.nextPk⟩,
        { d with pk := some c.pk }, none) ∧
    ((update_or_create_reverse_o2o f s p d).1.children.map (fun x => x.pk) =
      s.children.map (fun x => x.pk)) ∧
    (update_or_create_reverse_o2o f s p d).1.nextPk = s.nextPk := by
  have hc : c ∈ s.children := by
    have hm : c ∈ linkedChildren s p := by
      rw [hlinked]; exact List.mem_cons_self _ _
    exact (List.mem_filter.mp hm).1
  have hcpos : c.pk ≠ 0 := by
    have := (hwf.2.2 c hc).1
    omega
  have hmain : update_or_create_reverse_o2o f s p d =
      (⟨s.children.map
          (fun x => if x.pk == c.pk then ⟨c.pk, d.attrs, some p⟩ else x),
        s.nextPk⟩,
        { d with pk := some c.pk }, none) := by
    simp [update_or_create_reverse_o2o, hlinked, hdpk, revLoop, hdv,
      lookupInst, getRelatedPk, hcpos, saveNested]
  refine ⟨hmain, ?_, ?_⟩
  · rw [hmain]
    show (s.children.map
        (fun x => if x.pk == c.pk then ⟨c.pk, d.attrs, some p⟩ else x)).map
          (fun x => x.pk) = s.children.map (fun x => x.pk)
    rw [List.map_map]
    apply List.map_congr_left
    intro x _
    by_cases hx : x.pk = c.pk
    · simp [hx]
    · simp [hx]
  · rw [hmain]

theorem claim_C3_witness :
    ((⟨[⟨1, 10, some 1⟩, ⟨2, 20, some 1⟩], 3⟩ : Store).wf ∧
      linkedChildren ⟨[⟨1, 10, some 1⟩, ⟨2, 20, some 1⟩], 3⟩ 7 = [] ∧
      (⟨[⟨5, 10, some 7⟩], 6⟩ : Store).wf ∧
      linkedChildren ⟨[⟨5, 10, some 7⟩], 6⟩ 7 = [⟨5, 10, some 7⟩] ∧
      (⟨none, 99, true, 0, true⟩ : ChildData).pk = none ∧
      (⟨none, 99, true, 0, true⟩ : ChildData).valid = true) ∧
    (update_or_create_reverse_o2o "item" ⟨[⟨5, 10, some 7⟩], 6⟩ 7
        ⟨none, 99, true, 0, true⟩ =
      (⟨([⟨5, 10, some 7⟩] : List Child).map
          (fun x => if x.pk == 5 then (⟨5, 99, some 7⟩ : Child) else x), 6⟩,
        { (⟨none, 99, true, 0, true⟩ : ChildData) with pk := some 5 },
        none) ∧
     ((update_or_create_reverse_o2o "item" ⟨[⟨5, 10, some 7⟩], 6⟩ 7
        ⟨none, 99, true, 0, true⟩).1.children.map (fun x => x.pk) =
      ([⟨5, 10, some 7⟩] : List Child).map (fun x => x.pk)) ∧
     (update_or_create_reverse_o2o "item" ⟨[⟨5, 10, some 7⟩], 6⟩ 7
        ⟨none, 99, true, 0, true⟩).1.nextPk = 6) :=
  ⟨by decide,
    claim_C3 "item" ⟨[⟨5, 10, some 7⟩], 6⟩ 7 ⟨5, 10, some 7⟩
      ⟨none, 99, true, 0, true⟩ (by decide) (by decide) (by decide)
      (by decide)⟩

/-- **C4** — For a many-to-one direct relation whose submitted mapping
carries a key `k` different from the key `c` of the currently linked
entity, the resolver creates a fresh entity under a new key instead of
updating the linked one: the store gains exactly the new row, the saved
key is the fresh auto-increment key (which differs from `c`), no error is
raised, and the previously linked entity is still stored unchanged. -/
theorem claim_C4 (f : String) (s : DStore) (c k a : Nat) (d : DData)
    (hwf : s.wf) (hmem : (⟨c, a⟩ : DEnt) ∈ s.ents)
    (hdpk : d.pk = some k) (hkc : k ≠ c) (hdv : d.valid = true) :
    update_or_create_direct_m2o f s (some c) d =
      (⟨s.ents ++ [⟨s.nextPk, d.attrs⟩], s.nextPk + 1⟩, some s.nextPk,
        none) ∧
    (⟨c, a⟩ : DEnt) ∈ (update_or_create_direct_m2o f s (some c) d).1.ents ∧
    s.nextPk ≠ c := by
  have hfindSome : (s.ents.find? (fun x => x.pk == c)).isSome := by
    rw [List.find?_isSome]
    exact ⟨⟨c, a⟩, hmem, by simp⟩
  obtain ⟨e, hfind⟩ := Option.isSome_iff_exists.mp hfindSome
  have hepk : e.pk = c := by simpa using List.find?_some hfind
  have hclt : c < s.nextPk := by
    have := (hwf.2.2 ⟨c, a⟩ hmem).2
    simpa using this
  have hmismatch : pkMismatch (getRelatedPk d.pk) (some e.pk) = true := by
    rw [hdpk, hepk]
    by_cases hk0 : k = 0
    · subst hk0
      simp [getRelatedPk, pkMismatch]
    · simp [getRelatedPk, pkMismatch, hk0, hkc]
  have hmain : update_or_create_direct_m2o f s (some c) d =
      (⟨s.ents ++ [⟨s.nextPk, d.attrs⟩], s.nextPk + 1⟩, some s.nextPk,
        none) := by
    simp only [update_or_create_direct_m2o, hfind]
    simp only [Option.bind_eq_bind, Option.some_bind] at *
    simp [hfind, hmismatch, hdv]
  refine ⟨hmain, ?_, by omega⟩
  rw [hmain]
  exact List.mem_append_left _ hmem

theorem claim_C4_witness :
    ((⟨[⟨3, 30⟩, ⟨4, 40⟩], 5⟩ : DStore).wf ∧
      (⟨3, 30⟩ : DEnt) ∈ ([⟨3, 30⟩, ⟨4, 40⟩] : List DEnt) ∧
      (⟨some 9, 77, true, 0⟩ : DData).pk = some 9 ∧ (9 : Nat) ≠ 3 ∧
      (⟨some 9, 77, true, 0⟩ : DData).valid = true) ∧
    (update_or_create_direct_m2o "author" ⟨[⟨3, 30⟩, ⟨4, 40⟩], 5⟩ (some 3)
        ⟨some 9, 77, true, 0⟩ =
      (⟨[⟨3, 30⟩, ⟨4, 40⟩] ++ [⟨5, 77⟩], 6⟩, some 5, none) ∧
     (⟨3, 30⟩ : DEnt) ∈ (update_or_create_direct_m2o "author"
        ⟨[⟨3, 30⟩, ⟨4, 40⟩], 5⟩ (some 3) ⟨some 9, 77, true, 0⟩).1.ents ∧
     (5 : Nat) ≠ 3) :=
  ⟨by decide,
    claim_C4 "author" ⟨[⟨3, 30⟩, ⟨4, 40⟩], 5⟩ 3 9 30 ⟨some 9, 77, true, 0⟩
      (by decide) (by decide) (by decide) (by decide) (by decide)⟩

/-- **C5** — On every update whose deletion pass raises no error, the
deletion reconciler processes the reverse relations in exactly the
reverse of their declaration order: the processing trace equals the
reversed list of declared field names (so for relations declared
`[A, B]`, `B`'s deletions are performed before `A`'s). -/
theorem claim_C5 (rels : List (String × List Nat)) (st : RState)
    (hok : (delete_reverse_relations_if_need rels st).2.2 = none) :
    (delete_reverse_relations_if_need rels st).2.1 =
      (rels.map Prod.fst).reverse := by
  unfold delete_reverse_relations_if_need at hok ⊢
  rw [deleteGo_trace _ _ hok, List.map_reverse]

theorem claim_C5_witness :
    (delete_reverse_relations_if_need [("A", [1]), ("B", [])]
        ⟨[⟨1, "A", []⟩, ⟨2, "A", []⟩, ⟨3, "B", []⟩]⟩).2.2 = none ∧
    (delete_reverse_relations_if_need [("A", [1]), ("B", [])]
        ⟨[⟨1, "A", []⟩, ⟨2, "A", []⟩, ⟨3, "B", []⟩]⟩).2.1 =
      (([("A", [1]), ("B", [])] : List (String × List Nat)).map
        Prod.fst).reverse :=
  ⟨by decide,
    claim_C5 [("A", [1]), ("B", [])]
      ⟨[⟨1, "A", []⟩, ⟨2, "A", []⟩, ⟨3, "B", []⟩]⟩ (by decide)⟩

/-- **C6** — When a reverse relation has at least one submitted child that
fails validation, the reconciler raises one error keyed by the relation's
field name: for a plural relation the value is the parallel slot list with
exactly one slot per submitted child in submission order — the empty
marker for a child that validated, the child's validation detail
otherwise; for a one-to-one relation the value is the single (first)
child's error detail. -/
theorem claim_C6 (f g : String) (s s' : Store) (p p' : Nat)
    (ds : List ChildData) (d : ChildData)
    (hinv : ds.any (fun x => !x.valid) = true)
    (hdv : d.valid = false) :
    ((update_or_create_reverse_o2m f s p ds).2.2 =
      some (.fieldList f (specErrSlots ds)) ∧
     (specErrSlots ds).length = ds.length ∧
     (∀ i (h1 : i < (specErrSlots ds).length) (h2 : i < ds.length),
        (specErrSlots ds)[i] =
          if ds[i].valid then none else some ds[i].errDetail)) ∧
    (update_or_create_reverse_o2o g s' p' d).2.2 =
      some (.fieldDetail g (some d.errDetail)) := by
  refine ⟨⟨update_or_create_reverse_o2m_err f s p ds hinv,
    by simp [specErrSlots], ?_⟩,
    update_or_create_reverse_o2o_err g s' p' d hdv⟩
  intro i h1 h2
  simp [specErrSlots]

theorem claim_C6_witness :
    (([⟨some 1, 11, true, 0, true⟩, ⟨none, 40, false, 77, true⟩] :
        List ChildData).any (fun x => !x.valid) = true ∧
      (⟨none, 8, false, 99, true⟩ : ChildData).valid = false) ∧
    (((update_or_create_reverse_o2m "ch" ⟨[⟨1, 10, some 1⟩], 2⟩ 1
        [⟨some 1, 11, true, 0, true⟩, ⟨none, 40, false, 77, true⟩]).2.2 =
      some (.fieldList "ch" (specErrSlots
        [⟨some 1, 11, true, 0, true⟩, ⟨none, 40, false, 77, true⟩])) ∧
     (specErrSlots [⟨some 1, 11, true, 0, true⟩,
        ⟨none, 40, false, 77, true⟩]).length =
       ([⟨some 1, 11, true, 0, true⟩, ⟨none, 40, false, 77, true⟩] :
         List ChildData).length ∧
     (∀ i (h1 : i < (specErrSlots [⟨some 1, 11, true, 0, true⟩,
          ⟨none, 40, false, 77, true⟩]).length)
        (h2 : i < ([⟨some 1, 11, true, 0, true⟩,
          ⟨none, 40, false, 77, true⟩] : List ChildData).length),
        (specErrSlots [⟨some 1, 11, true, 0, true⟩,
          ⟨none, 40, false, 77, true⟩])[i] =
          if ([⟨some 1, 11, true, 0, true⟩,
            ⟨none, 40, false, 77, true⟩] : List ChildData)[i].valid then none
          else some ([⟨some 1, 11, true, 0, true⟩,
            ⟨none, 40, false, 77, true⟩] : List ChildData)[i].errDetail)) ∧
    (update_or_create_reverse_o2o "item" ⟨[], 1⟩ 1
        ⟨none, 8, false, 99, true⟩).2.2 =
      some (.fieldDetail "item" (some 99))) :=
  ⟨by decide,
    claim_C6 "ch" "item" ⟨[⟨1, 10, some 1⟩], 2⟩ ⟨[], 1⟩ 1 1
      [⟨some 1, 11, true, 0, true⟩, ⟨none, 40, false, 77, true⟩]
      ⟨none, 8, false, 99, true⟩ (by decide) (by decide)⟩

/-- **C10** — For every all-valid payload (with distinct submitted keys),
every reverse-relation child successfully saved during reconciliation has
its saved primary key written back into its submitted mapping before the
deletion pass runs, and the deletion pass never deletes or detaches such a
child: after the full reverse pipeline, every payload mapping carries a
key that is still stored and linked to the parent (one-to-many), or still
present in the association set (many-to-many). -/
theorem claim_C10 (f g : String) (s : Store) (p : Nat) (ds : List ChildData)
    (m : MStore) (dsm : List ChildData)
    (hwf : s.wf) (hv : ∀ d ∈ ds, d.valid = true)
    (hnd : (ds.filterMap (fun d => getRelatedPk d.pk)).Nodup)
    (hwfm : m.wf) (hvm : ∀ d ∈ dsm, d.valid = true)
    (hndm : (dsm.filterMap (fun d => getRelatedPk d.pk)).Nodup) :
    (nestedUpdateReverseO2M f s p ds).2.2 = none ∧
    (∀ d' ∈ (nestedUpdateReverseO2M f s p ds).2.1,
      ∃ k, d'.pk = some k ∧
        ∃ c ∈ (nestedUpdateReverseO2M f s p ds).1.children,
          c.pk = k ∧ c.parent = some p) ∧
    (nestedUpdateReverseM2M g m dsm).2.2 = none ∧
    (∀ d' ∈ (nestedUpdateReverseM2M g m dsm).2.1,
      ∃ k, d'.pk = some k ∧ k ∈ (nestedUpdateReverseM2M g m dsm).1.assoc) := by
  have h1 := nestedUpdateReverseO2M_spec f s p ds hwf hv hnd
  have h2 := nestedUpdateReverseM2M_spec g m dsm hwfm hvm hndm
  rw [h1, h2]
  refine ⟨rfl, ?_, rfl, ?_⟩
  · intro d' hd'
    obtain ⟨k, hk, hksaved⟩ :=
      payload_pk_saved (linkedChildren s p) ds s.nextPk d' hd'
    have hklinked := specSaved_sub_linkedFinal s p ds k hksaved
    obtain ⟨c, hc, hcpk⟩ := List.mem_map.mp hklinked
    refine ⟨k, hk, c, (List.mem_filter.mp hc).1, hcpk, ?_⟩
    simpa using (List.mem_filter.mp hc).2
  · intro d' hd'
    obtain ⟨k, hk, hksaved⟩ :=
      payloadM_pk_saved (massocChildren m) dsm m.nextPk d' hd'
    exact ⟨k, hk, hksaved⟩

theorem claim_C10_witness :
    ((⟨[⟨1, 10, some 1⟩, ⟨2, 20, some 1⟩], 3⟩ : Store).wf ∧
      (∀ d ∈ ([⟨some 1, 11, true, 0, true⟩, ⟨none, 40, true, 0, true⟩] :
        List ChildData), d.valid = true) ∧
      (([⟨some 1, 11, true, 0, true⟩, ⟨none, 40, true, 0, true⟩] :
        List ChildData).filterMap (fun d => getRelatedPk d.pk)).Nodup ∧
      (⟨[⟨1, 10⟩, ⟨2, 20⟩], [1], 3⟩ : MStore).wf ∧
      (∀ d ∈ ([⟨some 1, 11, true, 0, true⟩] : List ChildData),
        d.valid = true) ∧
      (([⟨some 1, 11, true, 0, true⟩] : List ChildData).filterMap
        (fun d => getRelatedPk d.pk)).Nodup) ∧
    ((nestedUpdateReverseO2M "ch" ⟨[⟨1, 10, some 1⟩, ⟨2, 20, some 1⟩], 3⟩ 1
        [⟨some 1, 11, true, 0, true⟩, ⟨none, 40, true, 0, true⟩]).2.2 =
      none ∧
     (∀ d' ∈ (nestedUpdateReverseO2M "ch"
        ⟨[⟨1, 10, some 1⟩, ⟨2, 20, some 1⟩], 3⟩ 1
        [⟨some 1, 11, true, 0, true⟩, ⟨none, 40, true, 0, true⟩]).2.1,
      ∃ k, d'.pk = some k ∧
        ∃ c ∈ (nestedUpdateReverseO2M "ch"
            ⟨[⟨1, 10, some 1⟩, ⟨2, 20, some 1⟩], 3⟩ 1
            [⟨some 1, 11, true, 0, true⟩,
              ⟨none, 40, true, 0, true⟩]).1.children,
          c.pk = k ∧ c.parent = some 1) ∧
     (nestedUpdateReverseM2M "tags" ⟨[⟨1, 10⟩, ⟨2, 20⟩], [1], 3⟩
        [⟨some 1, 11, true, 0, true⟩]).2.2 = none ∧
     (∀ d' ∈ (nestedUpdateReverseM2M "tags" ⟨[⟨1, 10⟩, ⟨2, 20⟩], [1], 3⟩
        [⟨some 1, 11, true, 0, true⟩]).2.1,
      ∃ k, d'.pk = some k ∧
        k ∈ (nestedUpdateReverseM2M "tags" ⟨[⟨1, 10⟩, ⟨2, 20⟩], [1], 3⟩
          [⟨some 1, 11, true, 0, true⟩]).1.assoc)) :=
  ⟨by decide,
    claim_C10 "ch" "tags" ⟨[⟨1, 10, some 1⟩, ⟨2, 20, some 1⟩], 3⟩ 1
      [⟨some 1, 11, true, 0, true⟩, ⟨none, 40, true, 0, true⟩]
      ⟨[⟨1, 10⟩, ⟨2, 20⟩], [1], 3⟩ [⟨some 1, 11, true, 0, true⟩]
      (by decide) (by decide) (by decide) (by decide) (by decide)
      (by decide)⟩


/-- **C2** (corrected) — The original claim said the relation classifier
fails the save call with a schema-mismatch error when a relation field's
metadata cannot be resolved even after the plural-suffix retry.  In the
code (`_extract_relations`, mixins.py:25-28) the `FieldDoesNotExist`
raised by `_get_related_field` is caught and answered with `continue`:
the field is silently skipped and no error is ever reported (see the
counterexample).  Amended claim, proved here: the classifier is total
and every field name it places in the direct or reverse relation group
comes from a non-read-only declared field whose metadata does resolve —
unresolvable fields are skipped, never reported. -/
theorem claim_C2 (meta : ModelMeta) (fields : List SField)
    (validated : List (String × PVal)) (n : String)
    (h : n ∈ (extract_relations meta fields validated).2.1 ∨
      n ∈ (extract_relations meta fields validated).2.2) :
    ∃ f ∈ fields, f.name = n ∧ f.readOnly = false ∧
      (get_related_field meta f.source).isSome = true :=
  extract_relations_resolved meta fields validated n h

/-- **C2 counterexample** — a writable list-nested field whose source
`"foos_set"` resolves neither directly nor after stripping `_set`
(the model meta is empty): `_get_related_field` fails both lookups,
yet `_extract_relations` returns normally with the field in neither
relation group and the validated data untouched — there is no error
channel at all, so no `SchemaMismatch` (or any other) failure is
raised, refuting the original claim. -/
theorem claim_C2_counterexample :
    endsWithSet "foos_set" = true ∧ dropSetSuffix "foos_set" = "foos" ∧
    get_related_field [] "foos" = none ∧
    get_related_field [] "foos_set" = none ∧
    extract_relations []
        [⟨"foos_set", "foos_set", false, SFieldKind.listNested⟩]
        [("foos_set", PVal.value 1)] =
      ([("foos_set", PVal.value 1)], [], []) := by
  refine ⟨by decide, by decide, by decide, by decide, by decide⟩

theorem claim_C2_witness :
    (("bars" ∈ (extract_relations [("bars", MetaField.reverseRel)]
        [⟨"bars", "bars", false, SFieldKind.listNested⟩]
        [("bars", PVal.value 1)]).2.1 ∨
      "bars" ∈ (extract_relations [("bars", MetaField.reverseRel)]
        [⟨"bars", "bars", false, SFieldKind.listNested⟩]
        [("bars", PVal.value 1)]).2.2)) ∧
    (∃ f ∈ ([⟨"bars", "bars", false, SFieldKind.listNested⟩] : List SField),
      f.name = "bars" ∧ f.readOnly = false ∧
      (get_related_field [("bars", MetaField.reverseRel)]
        f.source).isSome = true) :=
  ⟨by decide,
    claim_C2 [("bars", MetaField.reverseRel)]
      [⟨"bars", "bars", false, SFieldKind.listNested⟩]
      [("bars", PVal.value 1)] "bars" (by decide)⟩

/-- **C7** (corrected) — The original claim said a protected deletion
fails with an error that names the blocking field and lists the blocking
entities, leaving the protected child intact.  The code
(`delete_reverse_relations_if_need`, mixins.py:328-331) raises
`cannot_delete_protected` whose message interpolates only the
comma-joined string forms of the blocking objects
(`ProtectedError.args[1]`) — the field name appears nowhere in the
error, and identical blockers under differently-named fields yield
identical errors (see the counterexample).  Amended claim, proved here:
(a) every child with a non-empty blocker set survives the deletion pass,
and (b) any raised error is the `cannot_delete_protected` failure whose
message is the template instantiated with the comma-joined blocker
listing of some submitted relation's doomed children — human-readable,
but carrying no field name. -/
theorem claim_C7 (rels : List (String × List Nat)) (st : RState) :
    (∀ c ∈ st.children, c.blockers ≠ [] →
      c ∈ ((delete_reverse_relations_if_need rels st).1).children) ∧
    (∀ e, (delete_reverse_relations_if_need rels st).2.2 = some e →
      ∃ fp ∈ rels, e = .cannotDeleteProtected (cannotDeleteMsg
        (String.intercalate ", "
          (((((delete_reverse_relations_if_need rels st).1).children.filter
              (fun c => c.rel == fp.1 && !(fp.2.contains c.pk))).map
                (fun c => c.blockers)).flatten)))) := by
  constructor
  · intro c hc hb
    exact deleteGo_protected_survive rels.reverse st c hc hb
  · intro e he
    obtain ⟨f, pks, hmem, hform⟩ := deleteGo_err rels.reverse st e he
    exact ⟨(f, pks), List.mem_reverse.mp hmem, hform⟩

/-- **C7 counterexample** — the same protected child (string form
`"Blocker #9"`) linked through two differently-named reverse relations
produces the very same error value, so the error cannot name the
blocking field, refuting the original claim's "names the blocking
field". -/
theorem claim_C7_counterexample :
    (delete_reverse_relations_if_need [("fieldA", [])]
        ⟨[⟨1, "fieldA", ["Blocker #9"]⟩]⟩).2.2 =
      (delete_reverse_relations_if_need [("fieldB", [])]
        ⟨[⟨1, "fieldB", ["Blocker #9"]⟩]⟩).2.2 ∧
    (delete_reverse_relations_if_need [("fieldA", [])]
        ⟨[⟨1, "fieldA", ["Blocker #9"]⟩]⟩).2.2 =
      some (.cannotDeleteProtected (cannotDeleteMsg "Blocker #9")) ∧
    "fieldA" ≠ "fieldB" := by
  refine ⟨rfl, rfl, by decide⟩

theorem claim_C7_witness :
    ((⟨1, "a", ["blk1"]⟩ : RChild) ∈
        (⟨[⟨1, "a", ["blk1"]⟩]⟩ : RState).children ∧
      (⟨1, "a", ["blk1"]⟩ : RChild).blockers ≠ [] ∧
      (delete_reverse_relations_if_need [("a", [])]
        ⟨[⟨1, "a", ["blk1"]⟩]⟩).2.2 =
        some (.cannotDeleteProtected (cannotDeleteMsg "blk1"))) ∧
    ((⟨1, "a", ["blk1"]⟩ : RChild) ∈
      ((delete_reverse_relations_if_need [("a", [])]
        ⟨[⟨1, "a", ["blk1"]⟩]⟩).1).children ∧
     ∃ fp ∈ ([("a", [])] : List (String × List Nat)),
       NestedError.cannotDeleteProtected (cannotDeleteMsg "blk1") =
         .cannotDeleteProtected (cannotDeleteMsg (String.intercalate ", "
           (((((delete_reverse_relations_if_need [("a", [])]
               ⟨[⟨1, "a", ["blk1"]⟩]⟩).1).children.filter
                 (fun c => c.rel == fp.1 && !(fp.2.contains c.pk))).map
                   (fun c => c.blockers)).flatten)))) :=
  ⟨⟨by decide, by decide, by decide⟩,
    (claim_C7 [("a", [])] ⟨[⟨1, "a", ["blk1"]⟩]⟩).1
      ⟨1, "a", ["blk1"]⟩ (by decide) (by decide),
    (claim_C7 [("a", [])] ⟨[⟨1, "a", ["blk1"]⟩]⟩).2
      (.cannotDeleteProtected (cannotDeleteMsg "blk1")) (by decide)⟩

/-- **C8** (corrected) — The original claim said resubmitting any payload
against the already-updated entity is an identity-level no-op.  It is
false for a direct many-to-one relation submitted without a key: the
direct resolver never writes the saved key back into the payload
(`update_or_create_direct_relations` has no `data['pk'] = ...`, unlike
the reverse loop at mixins.py:186), so the key mismatch recurs and every
resubmission creates a fresh entity and re-points the root's foreign key
(see the counterexample).  Amended claim, proved here: for payloads
whose direct mapping (when present) is valid and carries the key of the
entity currently linked through the root's foreign key, and whose
reverse children (when present) are all valid with distinct submitted
keys, both saves succeed and the second save changes no identities —
child (key, parent) pairs, direct-entity keys, the root row, and both
auto-increment counters are unchanged. -/
theorem claim_C8 (s : FStore) (pl : FPayload)
    (hwfD : (⟨s.dents, s.nextD⟩ : DStore).wf)
    (hwfC : (⟨s.children, s.nextC⟩ : Store).wf)
    (hrev : ∀ ds, pl.reverse = some ds → (∀ d ∈ ds, d.valid = true) ∧
      (ds.filterMap (fun d => getRelatedPk d.pk)).Nodup)
    (hdir : ∀ dd, pl.direct = some dd → dd.valid = true ∧
      ∃ k, dd.pk = some k ∧ s.root.fk = some k ∧
        k ∈ s.dents.map (fun e => e.pk)) :
    (nestedUpdateFull s pl).err = none ∧
    (nestedUpdateFull (nestedUpdateFull s pl).store
        (nestedUpdateFull s pl).payload).err = none ∧
    (nestedUpdateFull (nestedUpdateFull s pl).store
        (nestedUpdateFull s pl).payload).store.children.map
          (fun c => (c.pk, c.parent)) =
      (nestedUpdateFull s pl).store.children.map (fun c => (c.pk, c.parent)) ∧
    (nestedUpdateFull (nestedUpdateFull s pl).store
        (nestedUpdateFull s pl).payload).store.dents.map (fun e => e.pk) =
      (nestedUpdateFull s pl).store.dents.map (fun e => e.pk) ∧
    (nestedUpdateFull (nestedUpdateFull s pl).store
        (nestedUpdateFull s pl).payload).store.root =
      (nestedUpdateFull s pl).store.root ∧
    (nestedUpdateFull (nestedUpdateFull s pl).store
        (nestedUpdateFull s pl).payload).store.nextC =
      (nestedUpdateFull s pl).store.nextC ∧
    (nestedUpdateFull (nestedUpdateFull s pl).store
        (nestedUpdateFull s pl).payload).store.nextD =
      (nestedUpdateFull s pl).store.nextD :=
  nestedUpdateFull_second_noop s pl hwfD hwfC hrev hdir

/-- **C8 counterexample** — a valid direct mapping without a key: the
first save creates the target entity (one row); resubmitting the
payload the first save returned creates a second entity and re-points
the root's foreign key, so the second save is not an identity-level
no-op, refuting the original claim. -/
theorem claim_C8_counterexample :
    (nestedUpdateFull ⟨⟨1, none⟩, [], [], 1, 1⟩
        ⟨some ⟨none, 7, true, 0⟩, some []⟩).err = none ∧
    (nestedUpdateFull ⟨⟨1, none⟩, [], [], 1, 1⟩
        ⟨some ⟨none, 7, true, 0⟩, some []⟩).store.dents.length = 1 ∧
    (nestedUpdateFull
        (nestedUpdateFull ⟨⟨1, none⟩, [], [], 1, 1⟩
          ⟨some ⟨none, 7, true, 0⟩, some []⟩).store
        (nestedUpdateFull ⟨⟨1, none⟩, [], [], 1, 1⟩
          ⟨some ⟨none, 7, true, 0⟩, some []⟩).payload).store.dents.length =
      2 ∧
    (nestedUpdateFull
        (nestedUpdateFull ⟨⟨1, none⟩, [], [], 1, 1⟩
          ⟨some ⟨none, 7, true, 0⟩, some []⟩).store
        (nestedUpdateFull ⟨⟨1, none⟩, [], [], 1, 1⟩
          ⟨some ⟨none, 7, true, 0⟩, some []⟩).payload).store.root ≠
      (nestedUpdateFull ⟨⟨1, none⟩, [], [], 1, 1⟩
        ⟨some ⟨none, 7, true, 0⟩, some []⟩).store.root := by
  decide

theorem claim_C8_witness :
    ((⟨[⟨1, 5⟩], 2⟩ : DStore).wf ∧ (⟨[⟨1, 10, some 1⟩], 2⟩ : Store).wf) ∧
    ((nestedUpdateFull ⟨⟨1, some 1⟩, [⟨1, 5⟩], [⟨1, 10, some 1⟩], 2, 2⟩
        ⟨some ⟨some 1, 7, true, 0⟩,
          some [⟨some 1, 11, true, 0, true⟩]⟩).err = none ∧
     (nestedUpdateFull
        (nestedUpdateFull ⟨⟨1, some 1⟩, [⟨1, 5⟩], [⟨1, 10, some 1⟩], 2, 2⟩
          ⟨some ⟨some 1, 7, true, 0⟩,
            some [⟨some 1, 11, true, 0, true⟩]⟩).store
        (nestedUpdateFull ⟨⟨1, some 1⟩, [⟨1, 5⟩], [⟨1, 10, some 1⟩], 2, 2⟩
          ⟨some ⟨some 1, 7, true, 0⟩,
            some [⟨some 1, 11, true, 0, true⟩]⟩).payload).err = none ∧
     (nestedUpdateFull
        (nestedUpdateFull ⟨⟨1, some 1⟩, [⟨1, 5⟩], [⟨1, 10, some 1⟩], 2, 2⟩
          ⟨some ⟨some 1, 7, true, 0⟩,
            some [⟨some 1, 11, true, 0, true⟩]⟩).store
        (nestedUpdateFull ⟨⟨1, some 1⟩, [⟨1, 5⟩], [⟨1, 10, some 1⟩], 2, 2⟩
          ⟨some ⟨some 1, 7, true, 0⟩,
            some [⟨some 1, 11, true, 0, true⟩]⟩).payload).store.children.map
          (fun c => (c.pk, c.parent)) =
      (nestedUpdateFull ⟨⟨1, some 1⟩, [⟨1, 5⟩], [⟨1, 10, some 1⟩], 2, 2⟩
        ⟨some ⟨some 1, 7, true, 0⟩,
          some [⟨some 1, 11, true, 0, true⟩]⟩).store.children.map
          (fun c => (c.pk, c.parent)) ∧
     (nestedUpdateFull
        (nestedUpdateFull ⟨⟨1, some 1⟩, [⟨1, 5⟩], [⟨1, 10, some 1⟩], 2, 2⟩
          ⟨some ⟨some 1, 7, true, 0⟩,
            some [⟨some 1, 11, true, 0, true⟩]⟩).store
        (nestedUpdateFull ⟨⟨1, some 1⟩, [⟨1, 5⟩], [⟨1, 10, some 1⟩], 2, 2⟩
          ⟨some ⟨some 1, 7, true, 0⟩,
            some [⟨some 1, 11, true, 0, true⟩]⟩).payload).store.dents.map
          (fun e => e.pk) =
      (nestedUpdateFull ⟨⟨1, some 1⟩, [⟨1, 5⟩], [⟨1, 10, some 1⟩], 2, 2⟩
        ⟨some ⟨some 1, 7, true, 0⟩,
          some [⟨some 1, 11, true, 0, true⟩]⟩).store.dents.map
          (fun e => e.pk) ∧
     (nestedUpdateFull
        (nestedUpdateFull ⟨⟨1, some 1⟩, [⟨1, 5⟩], [⟨1, 10, some 1⟩], 2, 2⟩
          ⟨some ⟨some 1, 7, true, 0⟩,
            some [⟨some 1, 11, true, 0, true⟩]⟩).store
        (nestedUpdateFull ⟨⟨1, some 1⟩, [⟨1, 5⟩], [⟨1, 10, some 1⟩], 2, 2⟩
          ⟨some ⟨some 1, 7, true, 0⟩,
            some [⟨some 1, 11, true, 0, true⟩]⟩).payload).store.root =
      (nestedUpdateFull ⟨⟨1, some 1⟩, [⟨1, 5⟩], [⟨1, 10, some 1⟩], 2, 2⟩
        ⟨some ⟨some 1, 7, true, 0⟩,
          some [⟨some 1, 11, true, 0, true⟩]⟩).store.root ∧
     (nestedUpdateFull
        (nestedUpdateFull ⟨⟨1, some 1⟩, [⟨1, 5⟩], [⟨1, 10, some 1⟩], 2, 2⟩
          ⟨some ⟨some 1, 7, true, 0⟩,
            some [⟨some 1, 11, true, 0, true⟩]⟩).store
        (nestedUpdateFull ⟨⟨1, some 1⟩, [⟨1, 5⟩], [⟨1, 10, some 1⟩], 2, 2⟩
          ⟨some ⟨some 1, 7, true, 0⟩,
            some [⟨some 1, 11, true, 0, true⟩]⟩).payload).store.nextC =
      (nestedUpdateFull ⟨⟨1, some 1⟩, [⟨1, 5⟩], [⟨1, 10, some 1⟩], 2, 2⟩
        ⟨some ⟨some 1, 7, true, 0⟩,
          some [⟨some 1, 11, true, 0, true⟩]⟩).store.nextC ∧
     (nestedUpdateFull
        (nestedUpdateFull ⟨⟨1, some 1⟩, [⟨1, 5⟩], [⟨1, 10, some 1⟩], 2, 2⟩
          ⟨some ⟨some 1, 7, true, 0⟩,
            some [⟨some 1, 11, true, 0, true⟩]⟩).store
        (nestedUpdateFull ⟨⟨1, some 1⟩, [⟨1, 5⟩], [⟨1, 10, some 1⟩], 2, 2⟩
          ⟨some ⟨some 1, 7, true, 0⟩,
            some [⟨some 1, 11, true, 0, true⟩]⟩).payload).store.nextD =
      (nestedUpdateFull ⟨⟨1, some 1⟩, [⟨1, 5⟩], [⟨1, 10, some 1⟩], 2, 2⟩
        ⟨some ⟨some 1, 7, true, 0⟩,
          some [⟨some 1, 11, true, 0, true⟩]⟩).store.nextD) :=
  ⟨⟨by decide, by decide⟩,
    claim_C8 ⟨⟨1, some 1⟩, [⟨1, 5⟩], [⟨1, 10, some 1⟩], 2, 2⟩
      ⟨some ⟨some 1, 7, true, 0⟩, some [⟨some 1, 11, true, 0, true⟩]⟩
      (by decide) (by decide)
      (fun ds hds => by
        injection hds with h
        subst h
        exact ⟨by decide, by decide⟩)
      (fun dd hdd => by
        injection hdd with h
        subst h
        exact ⟨by decide, 1, by decide, by decide, by decide⟩)⟩

/-- **C9** — For every field whose globally-unique validator was deferred
to save time: (a) `get_fields` strips every `UniqueValidator` from the
declared fields, so uniqueness is no longer checked at the validation
stage; at save time (b) an update resubmitting the bound instance's own
unchanged value passes (the validator excludes the current instance),
(c) a value already held by a different stored row fails with an error
keyed by the field name and carrying the offending value, and (d) on a
partial update a deferred-unique field absent from the write is
skipped. -/
theorem claim_C9 (flds : List UField) (fname : String)
    (records : List URecord) (cur : URecord) (v : Nat) (ipk : Option Nat)
    (hset : ∀ r ∈ records, r.value = cur.value → r.pk = cur.pk)
    (hconf : ∃ r ∈ records, r.value = v ∧ r.pk ≠ cur.pk) :
    (∀ g ∈ (get_fields flds).1, ∀ vl ∈ g.validators,
      vl ≠ FValidator.uniqueV) ∧
    validate_unique_fields [fname] false [(fname, cur.value)] records
      (some cur.pk) = .ok ∧
    validate_unique_fields [fname] false [(fname, v)] records
      (some cur.pk) = .fieldError fname v ∧
    validate_unique_fields [fname] true [] records ipk = .ok := by
  have hpass : uniqueValidatorPasses records (some cur.pk) cur.value = true := by
    unfold uniqueValidatorPasses
    simp only [Bool.not_eq_true', List.any_eq_false]
    intro r hr
    by_cases hv : r.value = cur.value
    · have := hset r hr hv
      simp [hv, this]
    · simp [hv]
  have hfail : uniqueValidatorPasses records (some cur.pk) v = false := by
    obtain ⟨r, hr, hrv, hrpk⟩ := hconf
    unfold uniqueValidatorPasses
    simp only [Bool.not_eq_false', List.any_eq_true]
    exact ⟨r, hr, by simp [hrv, Ne.symm hrpk]⟩
  refine ⟨get_fields_stripped flds, ?_, ?_, rfl⟩
  · simp [validate_unique_fields, hpass]
  · simp [validate_unique_fields, hfail]

theorem claim_C9_witness :
    ((∀ r ∈ ([⟨1, 5⟩, ⟨2, 6⟩] : List URecord), r.value = 5 → r.pk = 1) ∧
      (∃ r ∈ ([⟨1, 5⟩, ⟨2, 6⟩] : List URecord), r.value = 6 ∧ r.pk ≠ 1)) ∧
    ((∀ g ∈ (get_fields [⟨"name", [FValidator.uniqueV,
        FValidator.otherV 1]⟩]).1, ∀ vl ∈ g.validators,
      vl ≠ FValidator.uniqueV) ∧
     validate_unique_fields ["name"] false [("name", 5)] [⟨1, 5⟩, ⟨2, 6⟩]
       (some 1) = .ok ∧
     validate_unique_fields ["name"] false [("name", 6)] [⟨1, 5⟩, ⟨2, 6⟩]
       (some 1) = .fieldError "name" 6 ∧
     validate_unique_fields ["name"] true [] [⟨1, 5⟩, ⟨2, 6⟩] none = .ok) :=
  ⟨⟨by decide, by decide⟩,
    claim_C9 [⟨"name", [FValidator.uniqueV, FValidator.otherV 1]⟩] "name"
      [⟨1, 5⟩, ⟨2, 6⟩] ⟨1, 5⟩ 6 none (by decide) (by decide)⟩

end DWN

